import Mathlib

/-!
Verification of the card-game engine in src/main.rs (repository ein).

Conventions of the shallow embedding:

* Every Rust Vec is represented as a Lean List whose HEAD is the LAST element
  of the Vec.  Hence Vec::push is List.cons, Vec::pop takes the head, and the
  top card of a pile (Rust pile[pile.len() - 1] or pile.last()) is List.head?.
* Rust u8 and usize values are Nat, i8 values are Int.
* The rand crate generator (ThreadRng) is modelled as a deterministic stream
  of numbers with a cursor (structure Rng); SliceRandom::shuffle is modelled
  by an executable Fisher-Yates style permutation driven by that stream, and
  gen_range(0..n) by randNat.  Every theorem about shuffling uses only the
  fact that the result is a permutation of the input, so the exact random
  permutation chosen is immaterial.
* A Rust panic (integer underflow, index out of bounds, Option::unwrap on
  None) is modelled by returning Option.none, or by the dedicated
  TransferResult.panic constructor for transfer_cards.
-/

set_option maxHeartbeats 1000000
set_option maxRecDepth 4000

namespace Ein

/-- A deterministic stream of pseudo-random numbers together with a cursor.
Models the generator handle (ThreadRng) that the Rust code threads through
every operation needing randomness. -/
structure Rng where
  tape : Nat → Nat
  pos : Nat

/-- Draw one pseudo-random number below n from the stream, advancing the
cursor.  Models gen_range(0..n) of the rand crate. -/
def randNat (g : Rng) (n : Nat) : Nat × Rng :=
  (g.tape g.pos % n, ⟨g.tape, g.pos + 1⟩)

/-- enum Color from src/main.rs. -/
inductive Color
  | Red
  | Blue
  | Green
  | Yellow
deriving DecidableEq

/-- enum Action from src/main.rs. -/
inductive Action
  | Draw2
  | Reverse
  | Skip
deriving DecidableEq

/-- enum WildAction from src/main.rs. -/
inductive WildAction
  | ChangeColor
  | Draw4
deriving DecidableEq

/-- enum Card from src/main.rs. -/
inductive Card
  | Number (number : Nat) (color : Color)
  | Action (action : Action) (color : Color)
  | Wild (w : WildAction)
deriving DecidableEq

/-- enum PlayResult from src/main.rs. -/
inductive PlayResult
  | Win
  | Place (c : Option Color)
  | NoPlace
  | Starvation
deriving DecidableEq

/-- Card::accepts from src/main.rs.  self is the top card, other the
candidate.  The result is Option Bool because the wild-top arm evaluates
wild_color.unwrap(), which panics (modelled none) when wild_color is None. -/
def Card.accepts : Card → Card → Option Color → Option Bool
  | .Number n c, .Number n' c', _ => some (decide (c = c' ∨ n = n'))
  | .Number _ c, .Action _ c', _ => some (decide (c = c'))
  | .Action _ c, .Number _ c', _ => some (decide (c = c'))
  | .Action a c, .Action a' c', _ => some (decide (c = c' ∨ a = a'))
  | _, .Wild _, _ => some true
  | .Wild _, .Number _ c, wc => wc.map fun w => decide (c = w)
  | .Wild _, .Action _ c, wc => wc.map fun w => decide (c = w)

/-- The intrinsic color of a card: Wild cards carry none. -/
def cardColor : Card → Option Color
  | .Number _ c => some c
  | .Action _ c => some c
  | .Wild _ => none

/-- const COLORS from src/main.rs. -/
def COLORS : List Color := [Color.Red, Color.Blue, Color.Green, Color.Yellow]

/-- const ACTIONS from src/main.rs. -/
def ACTIONS : List Action := [Action.Draw2, Action.Reverse, Action.Skip]

/-- const WILD_ACTIONS from src/main.rs. -/
def WILD_ACTIONS : List WildAction := [WildAction.ChangeColor, WildAction.Draw4]

/-- The cards pushed for one color by the loop body of gen_draw_pile:
one rank-0 number card, then twice (ranks 1..=9 followed by the three
action kinds). -/
def color_cards (color : Color) : List Card :=
  Card.Number 0 color ::
    (List.range 2).flatMap fun _ =>
      ((List.range 9).map fun k => Card.Number (k + 1) color) ++
        ACTIONS.map fun action => Card.Action action color

/-- The full card set built by gen_draw_pile before the shuffle: the color
loop over COLORS followed by four copies of each wild kind. -/
def unshuffled_pile : List Card :=
  (COLORS.flatMap color_cards) ++
    WILD_ACTIONS.flatMap fun w => List.replicate 4 (Card.Wild w)

/-- One step of the modelled shuffle: pick a stream-determined index, move
that element to the front, recurse on the rest.  The fuel argument makes the
recursion structural; it is always called with fuel = length. -/
def shuffleFuel : Nat → Rng → List Card → List Card × Rng
  | 0, g, l => (l, g)
  | _ + 1, g, [] => ([], g)
  | fuel + 1, g, a :: as =>
    match randNat g (a :: as).length with
    | (k, g') =>
      match shuffleFuel fuel g' ((a :: as).eraseIdx k) with
      | (tail, g'') => ((a :: as).getD k a :: tail, g'')

/-- Models SliceRandom::shuffle of the rand crate: a stream-determined
permutation of the list. -/
def shuffle (g : Rng) (l : List Card) : List Card × Rng :=
  shuffleFuel l.length g l

/-- gen_draw_pile from src/main.rs: the fixed composition, then a shuffle. -/
def gen_draw_pile (g : Rng) : List Card × Rng :=
  shuffle g unshuffled_pile

/-- Outcome of one call to transfer_cards.  done is a completed transfer
(Rust return value false), starved is the Starvation signal (Rust return
value true), and panic models the integer-underflow panic of
discard_pile.len() - 1 when the discard pile is empty. -/
inductive TransferResult
  | panic
  | starved (draw discard deck : List Card) (g : Rng)
  | done (draw discard deck : List Card) (g : Rng)

/-- transfer_cards from src/main.rs.  Arguments and result lists follow the
reversed-Vec convention (head = top).  amount cards are popped from the draw
pile into deck; when the draw pile is empty the discard pile is recycled:
with exactly one discard card the function signals starvation, with none it
panics, and otherwise all discard cards except the top are shuffled into the
draw pile and the loop pops again (if the shuffle somehow produced an empty
list, the retried pop would fail again over the one-card discard pile and
starve, which the second match arm reproduces). -/
def transfer_cards : List Card → List Card → List Card → Nat → Rng → TransferResult
  | draw, discard, deck, 0, g => .done draw discard deck g
  | c :: draw, discard, deck, n + 1, g => transfer_cards draw discard (c :: deck) n g
  | [], [], _, _ + 1, _ => .panic
  | [], [top], deck, _ + 1, g => .starved [] [top] deck g
  | [], top :: r :: rs, deck, n + 1, g =>
    match shuffle g (r :: rs) with
    | ([], g') => .starved [] [top] deck g'
    | (c :: draw', g') => transfer_cards draw' [top] (c :: deck) n g'

/-- init_discard_pile from src/main.rs, with an explicit fuel bound on the
number of inspections of the top of the draw pile.  The Rust loop is
unbounded; fuel exhaustion (and the unwrap panic on an empty pile) is
modelled by none.  On success the non-wild front card moves to the discard
pile. -/
def init_discard_pile_fuel : Nat → List Card → List Card → Rng → Option (List Card × List Card × Rng)
  | 0, _, _, _ => none
  | fuel + 1, discard, draw, g =>
    match draw.head? with
    | none => none
    | some (Card.Wild _) =>
      match shuffle g draw with
      | (draw', g') => init_discard_pile_fuel fuel discard draw' g'
    | some c => some (c :: discard, draw.tail, g)

/-- The body of the loop in init_players from src/main.rs: remaining counts
how many hands are still to be dealt (the Rust loop runs bot_count + 1
times), and isFirst marks the i = 0 iteration, whose freshly dealt hand is
dropped because the Human player push is commented out in the source.  The
Rust code ignores the return value of transfer_cards, so starved and done
continue identically; only the panic propagates. -/
def init_players_go : Nat → Bool → List Card → List Card → Rng →
    Option (List (List Card) × List Card × List Card × Rng)
  | 0, _, draw, discard, g => some ([], draw, discard, g)
  | r + 1, isFirst, draw, discard, g =>
    match transfer_cards draw discard [] 7 g with
    | .panic => none
    | .starved d di de g' =>
      (match init_players_go r false d di g' with
       | none => none
       | some (ps, d₂, di₂, g₂) => some ((if isFirst then ps else de :: ps), d₂, di₂, g₂))
    | .done d di de g' =>
      (match init_players_go r false d di g' with
       | none => none
       | some (ps, d₂, di₂, g₂) => some ((if isFirst then ps else de :: ps), d₂, di₂, g₂))

/-- init_players from src/main.rs: deals INITIAL_CARDS_PER_PLAYER = 7 cards
bot_count + 1 times and returns the decks of the bots (the first dealt hand
is dropped, see init_players_go). -/
def init_players (bot_count : Nat) (draw discard : List Card) (g : Rng) :
    Option (List (List Card) × List Card × List Card × Rng) :=
  init_players_go (bot_count + 1) true draw discard g

/-- Vec::swap_remove translated to the reversed-Vec convention: the element
at position j is returned, and the front element (the last-pushed card of
the Vec) takes its place.  An out-of-range index panics (none). -/
def swap_remove (l : List Card) (j : Nat) : Option (Card × List Card) :=
  match l, j with
  | [], _ => none
  | a :: as, 0 => some (a, as)
  | a :: as, j' + 1 =>
    match as.get? j' with
    | none => none
    | some c => some (c, as.set j' a)

/-- The possible_idxs loop of Bot::play: the positions (in our list
representation, counting from i) of the cards in the hand that the top card
accepts.  A panic of accepts anywhere in the scan aborts the whole call
(none), as in Rust. -/
def possible_idxs : Card → Option Color → List Card → Nat → Option (List Nat)
  | _, _, [], _ => some []
  | top, wc, c :: cs, i =>
    match top.accepts c wc with
    | none => none
    | some b =>
      match possible_idxs top wc cs (i + 1) with
      | none => none
      | some rest => some (if b then i :: rest else rest)

/-- SliceRandom::choose of the rand crate: none on an empty slice, otherwise
a stream-determined element. -/
def choose (g : Rng) (l : List Nat) : Option Nat × Rng :=
  match l with
  | [] => (none, g)
  | a :: as =>
    match randNat g (a :: as).length with
    | (k, g') => (some ((a :: as).getD k a), g')

/-- The Distribution of Color impl from src/main.rs: gen_range(0..=3) with
0 Red, 1 Blue, 2 Yellow and 3 Green. -/
def colorFromNat : Nat → Color
  | 0 => Color.Red
  | 1 => Color.Blue
  | 2 => Color.Yellow
  | _ => Color.Green

/-- The tail of Bot::play guarded by if let Some(idx) = chosen_idx: the card
at idx leaves the hand by swap_remove and becomes the new discard top; a
Reverse card negates the direction; a Wild card binds a stream-chosen color;
an emptied hand wins, otherwise the play is a Place carrying the new wild
color.  Returns (result, new discard, new hand, new direction, rng). -/
def place_card (deck : List Card) (idx : Nat) (discard : List Card) (dir : Int) (g : Rng) :
    Option (PlayResult × List Card × List Card × Int × Rng) :=
  match swap_remove deck idx with
  | none => none
  | some (card, deck') =>
    match
      (match card with
       | Card.Action a _ => ((none : Option Color), if a = Action.Reverse then -dir else dir, g)
       | Card.Wild _ =>
         (match randNat g 4 with
          | (k, g') => (some (colorFromNat k), dir, g'))
       | _ => ((none : Option Color), dir, g)) with
    | (nwc, dir', g') =>
      if deck'.length = 0 then some (PlayResult.Win, card :: discard, deck', dir', g')
      else some (PlayResult.Place nwc, card :: discard, deck', dir', g')

/-- The part of Bot::play after the hot-card handling: scan the hand for a
playable card, let the stream choose among them; with none, draw one card
via transfer_cards (propagating Starvation) and play it if the top accepts
it, else pass.  Returns (result, draw, discard, hand, dir, rng). -/
def free_phase (draw discard deck : List Card) (dir : Int) (wc : Option Color) (g : Rng) :
    Option (PlayResult × List Card × List Card × List Card × Int × Rng) :=
  match discard.head? with
  | none => none
  | some top =>
    match possible_idxs top wc deck 0 with
    | none => none
    | some idxs =>
      match choose g idxs with
      | (some idx, g₁) =>
        (match place_card deck idx discard dir g₁ with
         | none => none
         | some (r, discard', deck', dir', g₂) => some (r, draw, discard', deck', dir', g₂))
      | (none, g₁) =>
        match transfer_cards draw discard deck 1 g₁ with
        | .panic => none
        | .starved d di de g₂ => some (PlayResult.Starvation, d, di, de, dir, g₂)
        | .done d di de g₂ =>
          match de with
          | [] => none
          | c :: _ =>
            match di.head? with
            | none => none
            | some top' =>
              match top'.accepts c wc with
              | none => none
              | some true =>
                (match place_card de 0 di dir g₂ with
                 | none => none
                 | some (r, discard', deck', dir', g₃) => some (r, d, discard', deck', dir', g₃))
              | some false => some (PlayResult.NoPlace, d, di, de, dir, g₂)

/-- Bot::play from src/main.rs.  With is_hot set, a Skip top passes
immediately, a Draw2 or Draw4 top forces a transfer of 2 or 4 cards
(propagating Starvation) and then passes; every other top falls through to
the free phase.  Returns (result, draw, discard, hand, dir, rng); indexing
an empty discard pile panics (none). -/
def Bot.play (draw discard deck : List Card) (dir : Int) (is_hot : Bool)
    (wild_color : Option Color) (g : Rng) :
    Option (PlayResult × List Card × List Card × List Card × Int × Rng) :=
  if is_hot then
    match discard.head? with
    | none => none
    | some (Card.Action Action.Skip _) => some (PlayResult.NoPlace, draw, discard, deck, dir, g)
    | some (Card.Action Action.Draw2 _) =>
      match transfer_cards draw discard deck 2 g with
      | .panic => none
      | .starved d di de g' => some (PlayResult.Starvation, d, di, de, dir, g')
      | .done d di de g' => some (PlayResult.NoPlace, d, di, de, dir, g')
    | some (Card.Wild WildAction.Draw4) =>
      match transfer_cards draw discard deck 4 g with
      | .panic => none
      | .starved d di de g' => some (PlayResult.Starvation, d, di, de, dir, g')
      | .done d di de g' => some (PlayResult.NoPlace, d, di, de, dir, g')
    | some _ => free_phase draw discard deck dir wild_color g
  else free_phase draw discard deck dir wild_color g

/-- The mutable state of the loop in start from src/main.rs, plus the player
hands.  All lists follow the reversed-Vec convention. -/
structure GameState where
  draw : List Card
  discard : List Card
  players : List (List Card)
  dir : Int
  is_hot : Bool
  wild_color : Option Color
  cur_idx : Nat
  g : Rng

/-- Result of one iteration of the loop in start: either the loop continues
with a new state, or it breaks with the final PlayResult. -/
inductive StepResult
  | next (s : GameState)
  | ended (r : PlayResult) (s : GameState)

/-- The turn-advance expression of start:
(cur_idx + usize::try_from(player_count + dir).unwrap()) % players.len(),
including the i8::try_from bound on player_count and the failure of the
usize conversion on a negative step (both panics, modelled none). -/
def advance_idx (len cur : Nat) (dir : Int) : Option Nat :=
  if len ≤ 127 then
    if 0 ≤ (len : Int) + dir then some ((cur + ((len : Int) + dir).toNat) % len)
    else none
  else none

/-- One iteration of the loop in start from src/main.rs: the current player
plays; Place marks the state hot and installs the new wild color, NoPlace
clears the hot flag, and both advance the turn; Win and Starvation leave
the loop. -/
def start_step (s : GameState) : Option StepResult :=
  match s.players[s.cur_idx]? with
  | none => none
  | some deck =>
    match Bot.play s.draw s.discard deck s.dir s.is_hot s.wild_color s.g with
    | none => none
    | some (r, draw', discard', deck', dir', g') =>
      match r with
      | PlayResult.Place nwc =>
        (match advance_idx s.players.length s.cur_idx dir' with
         | none => none
         | some i =>
           some (StepResult.next
             { draw := draw', discard := discard', players := s.players.set s.cur_idx deck',
               dir := dir', is_hot := true, wild_color := nwc, cur_idx := i, g := g' }))
      | PlayResult.NoPlace =>
        (match advance_idx s.players.length s.cur_idx dir' with
         | none => none
         | some i =>
           some (StepResult.next
             { draw := draw', discard := discard', players := s.players.set s.cur_idx deck',
               dir := dir', is_hot := false, wild_color := s.wild_color, cur_idx := i, g := g' }))
      | r =>
        some (StepResult.ended r
          { draw := draw', discard := discard', players := s.players.set s.cur_idx deck',
            dir := dir', is_hot := s.is_hot, wild_color := s.wild_color, cur_idx := s.cur_idx,
            g := g' })

/-- How start reports the end of the game: a Win result names the winning
player index, any other break result is the no-winner game over. -/
inductive Outcome
  | winner (idx : Nat)
  | noWinner

/-- The loop in start from src/main.rs, run for at most fuel iterations
(none on fuel exhaustion or panic). -/
def start_loop : Nat → GameState → Option (Outcome × GameState)
  | 0, _ => none
  | fuel + 1, s =>
    match start_step s with
    | none => none
    | some (StepResult.next s') => start_loop fuel s'
    | some (StepResult.ended PlayResult.Win s') => some (Outcome.winner s'.cur_idx, s')
    | some (StepResult.ended _ s') => some (Outcome.noWinner, s')

/-- start from src/main.rs without the console I/O: generate the pile, deal
the hands, seed the discard pile, then drive the loop from direction 1,
hot flag true, no wild color and player index 0. -/
def run_game (bot_count fuel seedFuel : Nat) (g : Rng) : Option (Outcome × GameState) :=
  match gen_draw_pile g with
  | (pile, g₁) =>
    match init_players bot_count pile [] g₁ with
    | none => none
    | some (players, draw₁, discard₁, g₂) =>
      match init_discard_pile_fuel seedFuel discard₁ draw₁ g₂ with
      | none => none
      | some (discard₂, draw₂, g₃) =>
        start_loop fuel
          { draw := draw₂, discard := discard₂, players := players, dir := 1,
            is_hot := true, wild_color := none, cur_idx := 0, g := g₃ }

/-- All cards in play: draw pile, discard pile and every player hand. -/
def total_cards (s : GameState) : List Card :=
  s.draw ++ s.discard ++ s.players.flatten

/-- The wild-color binding contract: whenever a Wild card is on top of the
discard pile, a color is bound. -/
def wild_inv (s : GameState) : Prop :=
  ∀ w, s.discard.head? = some (Card.Wild w) → s.wild_color.isSome = true

/-- The constant-zero random stream, used for concrete evaluations. -/
def zeroTape : Nat → Nat := fun _ => 0

/-- A concrete generator over the constant-zero stream. -/
def g0 : Rng := ⟨zeroTape, 0⟩

/-- A concrete hot game state whose discard top is a Skip card. -/
def skip_hot_state : GameState :=
  { draw := [], discard := [Card.Action Action.Skip Color.Red], players := [[]], dir := 1,
    is_hot := true, wild_color := none, cur_idx := 0, g := g0 }

/-- A concrete hot game state whose discard top is a Draw2 card, with no
cards anywhere else: the forced draw must starve. -/
def draw2_starved_state : GameState :=
  { draw := [], discard := [Card.Action Action.Draw2 Color.Red], players := [[]], dir := 1,
    is_hot := true, wild_color := none, cur_idx := 0, g := g0 }

/-- A concrete game state in which the current player holds a playable Skip
card and a non-playable card. -/
def skip_play_state : GameState :=
  { draw := [], discard := [Card.Number 5 Color.Red],
    players := [[Card.Action Action.Skip Color.Red, Card.Number 3 Color.Blue], []],
    dir := 1, is_hot := false, wild_color := none, cur_idx := 0, g := g0 }

/-! Basic permutation lemmas about the modelled shuffle. -/

theorem perm_getD_eraseIdx : ∀ (l : List Card) (d : Card) (k : Nat), k < l.length →
    (l.getD k d :: l.eraseIdx k).Perm l := by
  intro l
  induction l with
  | nil => intro d k h; simp at h
  | cons a as ih =>
    intro d k h
    cases k with
    | zero =>
      simp only [List.getD_cons_zero, List.eraseIdx_cons_zero]
      exact List.Perm.refl _
    | succ k =>
      have h' : k < as.length := by simpa using h
      have hperm := ih d k h'
      have hswap : ((as.getD k d) :: a :: as.eraseIdx k).Perm (a :: (as.getD k d) :: as.eraseIdx k) :=
        List.Perm.swap a (as.getD k d) (as.eraseIdx k)
      simp only [List.getD_cons_succ, List.eraseIdx_cons_succ]
      exact hswap.trans (hperm.cons a)

theorem shuffleFuel_perm : ∀ (fuel : Nat) (g : Rng) (l : List Card),
    ((shuffleFuel fuel g l).1).Perm l := by
  intro fuel
  induction fuel with
  | zero => intro g l; simp [shuffleFuel]
  | succ fuel ih =>
    intro g l
    cases l with
    | nil => simp [shuffleFuel]
    | cons a as =>
      have hklt : g.tape g.pos % (a :: as).length < (a :: as).length :=
        Nat.mod_lt _ (by simp)
      rcases hsf : shuffleFuel fuel ⟨g.tape, g.pos + 1⟩
          ((a :: as).eraseIdx (g.tape g.pos % (a :: as).length)) with ⟨tail, g₂⟩
      have htail := ih ⟨g.tape, g.pos + 1⟩ ((a :: as).eraseIdx (g.tape g.pos % (a :: as).length))
      rw [hsf] at htail
      simp only [shuffleFuel, randNat, hsf]
      exact (htail.cons _).trans (perm_getD_eraseIdx (a :: as) a _ hklt)

theorem shuffle_perm (g : Rng) (l : List Card) : ((shuffle g l).1).Perm l :=
  shuffleFuel_perm l.length g l

theorem shuffle_length (g : Rng) (l : List Card) : (shuffle g l).1.length = l.length :=
  (shuffle_perm g l).length_eq

/-- Moving a card from the back of the third list to the front of the first
is a permutation of the concatenation. -/
theorem perm_snoc_mid (c : Card) (xs ys zs : List Card) :
    (xs ++ ys ++ (c :: zs)).Perm (c :: (xs ++ ys ++ zs)) := by
  have h := @List.perm_middle Card c (xs ++ ys) zs
  simpa [List.append_assoc] using h

/-! The behaviour of transfer_cards on a nonempty discard pile. -/

theorem transfer_cards_spec : ∀ (n : Nat) (draw deck : List Card) (top : Card)
    (rest : List Card) (g : Rng),
    match transfer_cards draw (top :: rest) deck n g with
    | .panic => False
    | .starved d' di' de' g' =>
      d' = [] ∧ di' = [top] ∧ draw.length + rest.length < n ∧
      de'.length = deck.length + draw.length + rest.length ∧
      (d' ++ di' ++ de').Perm (draw ++ (top :: rest) ++ deck)
    | .done d' di' de' g' =>
      n ≤ draw.length + rest.length ∧ di'.head? = some top ∧
      de'.length = deck.length + n ∧
      (n ≤ draw.length → di' = top :: rest) ∧
      (draw.length < n → di' = [top]) ∧
      (d' ++ di' ++ de').Perm (draw ++ (top :: rest) ++ deck) := by
  intro n
  induction n with
  | zero =>
    intro draw deck top rest g
    simp [transfer_cards]
  | succ n ih =>
    intro draw deck top rest g
    cases draw with
    | cons c dr =>
      have h := ih dr (c :: deck) top rest g
      have hstep : transfer_cards (c :: dr) (top :: rest) deck (n + 1) g =
          transfer_cards dr (top :: rest) (c :: deck) n g := rfl
      rw [hstep]
      have hmove : (dr ++ (top :: rest) ++ (c :: deck)).Perm ((c :: dr) ++ (top :: rest) ++ deck) :=
        perm_snoc_mid c dr (top :: rest) deck
      rcases hres : transfer_cards dr (top :: rest) (c :: deck) n g with
          _ | ⟨d', di', de', g'⟩ | ⟨d', di', de', g'⟩ <;> rw [hres] at h
      · exact h
      · obtain ⟨h1, h2, h3, h4, h5⟩ := h
        refine ⟨h1, h2, ?_, ?_, h5.trans hmove⟩
        · simp only [List.length_cons]
          omega
        · simp only [List.length_cons] at h4 ⊢
          omega
      · obtain ⟨h1, h2, h3, h4, h5, h6⟩ := h
        refine ⟨?_, h2, ?_, ?_, ?_, h6.trans hmove⟩
        · simp only [List.length_cons]
          omega
        · simp only [List.length_cons] at h3 ⊢
          omega
        · intro hh
          simp only [List.length_cons] at hh
          exact h4 (by omega)
        · intro hh
          simp only [List.length_cons] at hh
          exact h5 (by omega)
    | nil =>
      cases rest with
      | nil =>
        have hstep : transfer_cards [] [top] deck (n + 1) g = .starved [] [top] deck g := rfl
        rw [hstep]
        refine ⟨rfl, rfl, by simp, by simp, List.Perm.refl _⟩
      | cons r rs =>
        rcases hsh : shuffle g (r :: rs) with ⟨sh, g'⟩
        have hshlen : sh.length = rs.length + 1 := by
          have hl := shuffle_length g (r :: rs)
          rw [hsh] at hl
          simpa using hl
        cases sh with
        | nil => simp at hshlen
        | cons c dr' =>
          have hstep : transfer_cards [] (top :: r :: rs) deck (n + 1) g =
              transfer_cards dr' [top] (c :: deck) n g' := by
            simp only [transfer_cards, hsh]
          rw [hstep]
          have hshperm : ((c :: dr') : List Card).Perm (r :: rs) := by
            have hp := shuffle_perm g (r :: rs)
            rw [hsh] at hp
            exact hp
          have hdrlen : dr'.length = rs.length := by simpa using hshlen
          have hmove : (dr' ++ [top] ++ (c :: deck)).Perm ([] ++ (top :: r :: rs) ++ deck) := by
            have h1 : (dr' ++ [top] ++ (c :: deck)).Perm (c :: (dr' ++ [top] ++ deck)) :=
              perm_snoc_mid c dr' [top] deck
            have h2 : ((c :: (dr' ++ [top] ++ deck)) : List Card).Perm
                ((r :: rs) ++ (top :: deck)) := by
              have hp := hshperm.append_right (top :: deck)
              simpa [List.append_assoc] using hp
            have h3 : (((r :: rs) ++ (top :: deck)) : List Card).Perm
                (top :: ((r :: rs) ++ deck)) := List.perm_middle
            simpa [List.append_assoc] using (h1.trans h2).trans h3
          have h := ih dr' (c :: deck) top [] g'
          rcases hres : transfer_cards dr' [top] (c :: deck) n g' with
              _ | ⟨d', di', de', g₂⟩ | ⟨d', di', de', g₂⟩ <;> rw [hres] at h
          · exact h
          · obtain ⟨h1, h2, h3, h4, h5⟩ := h
            refine ⟨h1, h2, ?_, ?_, h5.trans hmove⟩
            · simp only [List.length_nil, List.length_cons] at h3 ⊢
              omega
            · simp only [List.length_nil, List.length_cons] at h4 ⊢
              omega
          · obtain ⟨h1, h2, h3, h4, h5, h6⟩ := h
            refine ⟨?_, h2, ?_, ?_, ?_, h6.trans hmove⟩
            · simp only [List.length_nil, List.length_cons] at h1 ⊢
              omega
            · simp only [List.length_cons] at h3 ⊢
              omega
            · intro hh
              simp only [List.length_nil] at hh
              omega
            · intro hh
              rcases le_or_lt n dr'.length with hc | hc
              · simpa using h4 (by simpa using hc)
              · exact h5 (by simpa using hc)

/-- When the draw pile already holds enough cards, transfer_cards completes
without ever looking at the discard pile or the generator. -/
theorem transfer_done_of_le : ∀ (n : Nat) (draw discard deck : List Card) (g : Rng),
    n ≤ draw.length →
    transfer_cards draw discard deck n g =
      .done (draw.drop n) discard ((draw.take n).reverse ++ deck) g := by
  intro n
  induction n with
  | zero => intro draw discard deck g _; simp [transfer_cards]
  | succ n ih =>
    intro draw discard deck g h
    cases draw with
    | nil => simp at h
    | cons c dr =>
      have hstep : transfer_cards (c :: dr) discard deck (n + 1) g =
          transfer_cards dr discard (c :: deck) n g := rfl
      rw [hstep, ih dr discard (c :: deck) g (by simpa using h)]
      simp [List.append_assoc]

/-- transfer_cards with a positive amount and two empty piles panics. -/
theorem transfer_panic (deck : List Card) (n : Nat) (g : Rng) :
    transfer_cards [] [] deck (n + 1) g = .panic := rfl

/-- When the draw pile holds at least 7 cards per hand to deal, the dealing
loop of init_players succeeds, deals 7 cards per iteration and touches
neither the discard pile nor the generator. -/
theorem init_players_go_spec : ∀ (k : Nat) (b : Bool) (draw discard : List Card) (g : Rng),
    7 * k ≤ draw.length →
    ∃ ps dr, init_players_go k b draw discard g = some (ps, dr, discard, g) ∧
      dr.length = draw.length - 7 * k ∧
      ps.length = k - (if b then 1 else 0) ∧
      (∀ de ∈ ps, de.length = 7) := by
  intro k
  induction k with
  | zero =>
    intro b draw discard g _
    exact ⟨[], draw, rfl, by simp, by cases b <;> simp, by simp⟩
  | succ k ih =>
    intro b draw discard g h
    have h7 : 7 ≤ draw.length := by omega
    have hstep := transfer_done_of_le 7 draw discard [] g h7
    obtain ⟨ps, dr, hgo, hlen, hps, hsz⟩ :=
      ih false (draw.drop 7) discard g (by simp; omega)
    have hdeal : init_players_go (k + 1) b draw discard g =
        (match init_players_go k false (draw.drop 7) discard g with
         | none => none
         | some (ps, d₂, di₂, g₂) =>
           some ((if b then ps else ((draw.take 7).reverse ++ []) :: ps), d₂, di₂, g₂)) := by
      simp only [init_players_go, hstep]
    rw [hdeal, hgo]
    cases b with
    | false =>
      refine ⟨((draw.take 7).reverse ++ []) :: ps, dr, rfl, by simp at hlen ⊢; omega,
        by simpa using hps, ?_⟩
      intro de hde
      rcases List.mem_cons.mp hde with hde | hde
      · simp [hde, List.length_take]
        omega
      · exact hsz de hde
    | true =>
      exact ⟨ps, dr, rfl, by simp at hlen ⊢; omega, by simpa using hps, hsz⟩

/-- transfer_cards with an empty discard pile and too few draw cards
panics. -/
theorem transfer_empty_discard_panic : ∀ (n : Nat) (draw deck : List Card) (g : Rng),
    draw.length < n → transfer_cards draw [] deck n g = .panic := by
  intro n
  induction n with
  | zero => intro draw deck g h; omega
  | succ n ih =>
    intro draw deck g h
    cases draw with
    | nil => rfl
    | cons c dr => exact ih dr (c :: deck) g (by simpa using h)

/-- Conservation for transfer_cards: on every non-panicking outcome the
cards of the three lists are a permutation of the input cards, and the top
of the discard pile is unchanged. -/
theorem transfer_cards_perm (n : Nat) (draw discard deck : List Card) (g : Rng) :
    match transfer_cards draw discard deck n g with
    | .panic => True
    | .starved d di de _ =>
      di.head? = discard.head? ∧ (d ++ di ++ de).Perm (draw ++ discard ++ deck)
    | .done d di de _ =>
      di.head? = discard.head? ∧ (d ++ di ++ de).Perm (draw ++ discard ++ deck) := by
  cases discard with
  | cons top rest =>
    have h := transfer_cards_spec n draw deck top rest g
    rcases hres : transfer_cards draw (top :: rest) deck n g with
        _ | ⟨d, di, de, g'⟩ | ⟨d, di, de, g'⟩ <;> rw [hres] at h
    · trivial
    · exact ⟨by rw [h.2.1]; rfl, h.2.2.2.2⟩
    · exact ⟨h.2.1, h.2.2.2.2.2⟩
  | nil =>
    rcases le_or_lt n draw.length with hle | hlt
    · rw [transfer_done_of_le n draw [] deck g hle]
      refine ⟨rfl, ?_⟩
      have h1 : ((draw.drop n ++ (draw.take n).reverse) : List Card).Perm
          (draw.take n ++ draw.drop n) :=
        ((draw.take n).reverse_perm.append_left (draw.drop n)).trans List.perm_append_comm
      have h2 := h1.append_right deck
      rw [List.take_append_drop] at h2
      simpa [List.append_assoc] using h2
    · rw [transfer_empty_discard_panic n draw deck g hlt]
      trivial

/-- Conservation for the dealing loop of init_players: the cards of the
result plus one dropped hand (the hand dealt for the commented-out human
player, empty when isFirst is false) are a permutation of the input cards. -/
theorem init_players_go_perm : ∀ (k : Nat) (b : Bool) (draw discard : List Card) (g : Rng),
    match init_players_go k b draw discard g with
    | none => True
    | some (ps, dr, di, _) =>
      ∃ dropped : List Card,
        (b = false → dropped = []) ∧
        (dr ++ di ++ (ps.flatten ++ dropped)).Perm (draw ++ discard) := by
  intro k
  induction k with
  | zero =>
    intro b draw discard g
    exact ⟨[], fun _ => rfl, by simp⟩
  | succ k ih =>
    intro b draw discard g
    have hT := transfer_cards_perm 7 draw discard [] g
    rcases hres : transfer_cards draw discard [] 7 g with
        _ | ⟨d, di, de, g'⟩ | ⟨d, di, de, g'⟩ <;> rw [hres] at hT
    · simp only [init_players_go, hres]
    all_goals (
      obtain ⟨_, hperm⟩ := hT
      rw [List.append_nil] at hperm
      have hI := ih false d di g'
      simp only [init_players_go, hres]
      rcases hgo : init_players_go k false d di g' with _ | ⟨ps, d₂, di₂, g₂⟩
      · simp
      · rw [hgo] at hI
        obtain ⟨dropped, hdrop, hpermI⟩ := hI
        rw [hdrop rfl, List.append_nil] at hpermI
        cases b with
        | true =>
          refine ⟨de, by simp, ?_⟩
          have h1 : ((d₂ ++ di₂ ++ (ps.flatten ++ de)) : List Card).Perm
              ((d₂ ++ di₂ ++ ps.flatten) ++ de) := by
            simp [List.append_assoc]
          have h2 := hpermI.append_right de
          have h3 : ((d ++ di) ++ de : List Card).Perm (draw ++ discard) := by
            simpa [List.append_assoc] using hperm
          simpa using (h1.trans h2).trans h3
        | false =>
          refine ⟨[], fun _ => rfl, ?_⟩
          have h1 : ((d₂ ++ di₂ ++ ((de :: ps).flatten ++ [])) : List Card).Perm
              ((d₂ ++ di₂) ++ (ps.flatten ++ de)) := by
            simp only [List.flatten_cons, List.append_nil]
            exact ((@List.perm_append_comm Card de ps.flatten).append_left
              _).trans (by simp [List.append_assoc])
          have h2 : ((d₂ ++ di₂) ++ (ps.flatten ++ de) : List Card).Perm
              ((d₂ ++ di₂ ++ ps.flatten) ++ de) := by simp [List.append_assoc]
          have h3 := hpermI.append_right de
          have h4 : ((d ++ di) ++ de : List Card).Perm (draw ++ discard) := by
            simpa [List.append_assoc] using hperm
          simpa using ((h1.trans h2).trans h3).trans h4)

/-- Replacing an element by a and pulling the old element to the front is a
permutation of pushing a in front. -/
theorem get_set_perm : ∀ (as : List Card) (j : Nat) (a x : Card), as.get? j = some x →
    ((x :: as.set j a) : List Card).Perm (a :: as) := by
  intro as
  induction as with
  | nil => intro j a x h; simp at h
  | cons b bs ih =>
    intro j a x h
    cases j with
    | zero =>
      simp only [List.get?_cons_zero, Option.some.injEq] at h
      subst h
      simp only [List.set_cons_zero]
      exact List.Perm.swap _ _ _
    | succ j =>
      simp only [List.get?_cons_succ] at h
      simp only [List.set_cons_succ]
      have h1 : ((x :: b :: bs.set j a) : List Card).Perm (b :: x :: bs.set j a) :=
        List.Perm.swap b x _
      have h2 := (ih j a x h).cons b
      have h3 : ((b :: a :: bs) : List Card).Perm (a :: b :: bs) := List.Perm.swap a b bs
      exact (h1.trans h2).trans h3

/-- The card removed by swap_remove plus the remaining hand is a permutation
of the original hand. -/
theorem swap_remove_perm (l : List Card) (j : Nat) (c : Card) (l' : List Card)
    (h : swap_remove l j = some (c, l')) : ((c :: l') : List Card).Perm l := by
  cases l with
  | nil => simp [swap_remove] at h
  | cons a as =>
    cases j with
    | zero =>
      simp only [swap_remove, Option.some.injEq, Prod.mk.injEq] at h
      obtain ⟨rfl, rfl⟩ := h
      exact List.Perm.refl _
    | succ j =>
      simp only [swap_remove] at h
      rcases hg : as.get? j with _ | x <;> rw [hg] at h
      · simp at h
      · simp only [Option.some.injEq, Prod.mk.injEq] at h
        obtain ⟨rfl, rfl⟩ := h
        exact get_set_perm as j a x hg

/-- The card set built by gen_draw_pile has 108 cards before shuffling. -/
theorem unshuffled_pile_length : unshuffled_pile.length = 108 := by rfl

/-- The generated draw pile is a permutation of the fixed card set. -/
theorem gen_draw_pile_perm (g : Rng) : ((gen_draw_pile g).1).Perm unshuffled_pile :=
  shuffle_perm g unshuffled_pile

/-- The generated draw pile always has 108 cards. -/
theorem gen_draw_pile_length (g : Rng) : (gen_draw_pile g).1.length = 108 := by
  rw [(gen_draw_pile_perm g).length_eq, unshuffled_pile_length]

/-- Case analysis of place_card: the played card moves from the hand to the
top of the discard pile, the direction changes only on a Reverse card, the
result is Win or Place, and a played Wild always binds a color. -/
theorem place_card_spec (deck : List Card) (idx : Nat) (discard : List Card) (dir : Int)
    (g : Rng) :
    match place_card deck idx discard dir g with
    | none => True
    | some (r, di', de', dir', _) =>
      ∃ card, di' = card :: discard ∧ ((card :: de') : List Card).Perm deck ∧
        ((∀ c₂, card ≠ Card.Action Action.Reverse c₂) → dir' = dir) ∧
        (r = PlayResult.Win ∨ ∃ nwc, r = PlayResult.Place nwc ∧
          (∀ w, card = Card.Wild w → ∃ col, nwc = some col)) := by
  rcases hsw : swap_remove deck idx with _ | ⟨card, deck'⟩
  · simp [place_card, hsw]
  · have hperm := swap_remove_perm deck idx card deck' hsw
    cases card with
    | Number n c =>
      have heq : place_card deck idx discard dir g =
          (if deck'.length = 0 then
            some (PlayResult.Win, Card.Number n c :: discard, deck', dir, g)
          else some (PlayResult.Place none, Card.Number n c :: discard, deck', dir, g)) := by
        simp only [place_card, hsw]
      by_cases hlen : deck'.length = 0
      · rw [heq, if_pos hlen]
        exact ⟨_, rfl, hperm, fun _ => rfl, Or.inl rfl⟩
      · rw [heq, if_neg hlen]
        exact ⟨_, rfl, hperm, fun _ => rfl, Or.inr ⟨none, rfl, fun w h => Card.noConfusion h⟩⟩
    | Action a c =>
      have heq : place_card deck idx discard dir g =
          (if deck'.length = 0 then
            some (PlayResult.Win, Card.Action a c :: discard, deck',
              (if a = Action.Reverse then -dir else dir), g)
          else some (PlayResult.Place none, Card.Action a c :: discard, deck',
              (if a = Action.Reverse then -dir else dir), g)) := by
        simp only [place_card, hsw]
      by_cases hlen : deck'.length = 0
      · rw [heq, if_pos hlen]
        refine ⟨_, rfl, hperm, fun hne => ?_, Or.inl rfl⟩
        have ha : a ≠ Action.Reverse := fun hh => hne c (by rw [hh])
        simp [ha]
      · rw [heq, if_neg hlen]
        refine ⟨_, rfl, hperm, fun hne => ?_, Or.inr ⟨none, rfl, fun w h => Card.noConfusion h⟩⟩
        have ha : a ≠ Action.Reverse := fun hh => hne c (by rw [hh])
        simp [ha]
    | Wild w =>
      have heq : place_card deck idx discard dir g =
          (if deck'.length = 0 then
            some (PlayResult.Win, Card.Wild w :: discard, deck', dir, ⟨g.tape, g.pos + 1⟩)
          else some (PlayResult.Place (some (colorFromNat (g.tape g.pos % 4))),
              Card.Wild w :: discard, deck', dir, ⟨g.tape, g.pos + 1⟩)) := by
        simp only [place_card, hsw, randNat]
      by_cases hlen : deck'.length = 0
      · rw [heq, if_pos hlen]
        exact ⟨_, rfl, hperm, fun _ => rfl, Or.inl rfl⟩
      · rw [heq, if_neg hlen]
        exact ⟨_, rfl, hperm, fun _ => rfl, Or.inr ⟨_, rfl, fun w' _ => ⟨_, rfl⟩⟩⟩

/-- Moving a card from the front of the hand list to the front of the
discard list permutes the concatenation. -/
theorem perm_play_move (card : Card) (discard de deck : List Card)
    (h : ((card :: de) : List Card).Perm deck) :
    (((card :: discard) ++ de) : List Card).Perm (discard ++ deck) := by
  have h1 : (((card :: discard) ++ de) : List Card).Perm (discard ++ (card :: de)) :=
    List.perm_middle.symm
  exact h1.trans (h.append_left discard)

/-- Case analysis of free_phase: cards are conserved, a pass keeps the top
card and the direction, and a placed card obeys place_card_spec. -/
theorem free_phase_spec (draw discard deck : List Card) (dir : Int) (wc : Option Color)
    (g : Rng) :
    match free_phase draw discard deck dir wc g with
    | none => True
    | some (r, d', di', de', dir', _) =>
      (d' ++ di' ++ de').Perm (draw ++ discard ++ deck) ∧
      (r = PlayResult.NoPlace → di'.head? = discard.head? ∧ dir' = dir) ∧
      (r = PlayResult.Starvation → di'.head? = discard.head?) ∧
      (∀ nwc, r = PlayResult.Place nwc →
        (∀ w, di'.head? = some (Card.Wild w) → ∃ col, nwc = some col) ∧
        ((∀ c₂, di'.head? ≠ some (Card.Action Action.Reverse c₂)) → dir' = dir)) := by
  rcases hhd : discard.head? with _ | top
  · simp [free_phase, hhd]
  · rcases hpi : possible_idxs top wc deck 0 with _ | idxs
    · simp [free_phase, hhd, hpi]
    · rcases hch : choose g idxs with ⟨oidx, g₁⟩
      rcases oidx with _ | idx
      · -- no playable card chosen: draw one
        have hT := transfer_cards_perm 1 draw discard deck g₁
        rcases hres : transfer_cards draw discard deck 1 g₁ with
            _ | ⟨d, di, de, g₂⟩ | ⟨d, di, de, g₂⟩ <;> rw [hres] at hT
        · simp [free_phase, hhd, hpi, hch, hres]
        · have heq : free_phase draw discard deck dir wc g =
              some (PlayResult.Starvation, d, di, de, dir, g₂) := by
            simp only [free_phase, hhd, hpi, hch, hres]
          rw [heq]
          exact ⟨hT.2, fun h => PlayResult.noConfusion h, fun _ => hhd ▸ hT.1,
            fun nwc h => PlayResult.noConfusion h⟩
        · obtain ⟨hh, hp⟩ := hT
          rcases de with _ | ⟨c, de0⟩
          · simp [free_phase, hhd, hpi, hch, hres]
          · rcases hh2 : di.head? with _ | top'
            · simp [free_phase, hhd, hpi, hch, hres, hh2]
            · rcases hacc : top'.accepts c wc with _ | b
              · simp [free_phase, hhd, hpi, hch, hres, hh2, hacc]
              · cases b with
                | false =>
                  have heq : free_phase draw discard deck dir wc g =
                      some (PlayResult.NoPlace, d, di, c :: de0, dir, g₂) := by
                    simp only [free_phase, hhd, hpi, hch, hres, hh2, hacc]
                  rw [heq]
                  exact ⟨hp, fun _ => ⟨hhd ▸ hh, rfl⟩, fun h => PlayResult.noConfusion h,
                    fun nwc h => PlayResult.noConfusion h⟩
                | true =>
                  have hP := place_card_spec (c :: de0) 0 di dir g₂
                  rcases hpl : place_card (c :: de0) 0 di dir g₂ with
                      _ | ⟨r₂, di₂, de₂, dir₂, g₃⟩ <;> rw [hpl] at hP
                  · simp [free_phase, hhd, hpi, hch, hres, hh2, hacc, hpl]
                  · have heq : free_phase draw discard deck dir wc g =
                        some (r₂, d, di₂, de₂, dir₂, g₃) := by
                      simp only [free_phase, hhd, hpi, hch, hres, hh2, hacc, hpl]
                    rw [heq]
                    obtain ⟨card, rfl, hcperm, hdir, hr⟩ := hP
                    have hperm2 : ((d ++ (card :: di) ++ de₂) : List Card).Perm
                        (draw ++ discard ++ deck) := by
                      have hmid := (perm_play_move card di de₂ (c :: de0) hcperm).append_left d
                      have hstep : ((d ++ (card :: di) ++ de₂) : List Card).Perm
                          (d ++ di ++ (c :: de0)) := by
                        simpa [List.append_assoc] using hmid
                      exact hstep.trans hp
                    refine ⟨hperm2, ?_, ?_, ?_⟩
                    · intro h
                      rcases hr with hr | ⟨nwc, hr, _⟩ <;> rw [hr] at h <;> exact PlayResult.noConfusion h
                    · intro h
                      rcases hr with hr | ⟨nwc, hr, _⟩ <;> rw [hr] at h <;> exact PlayResult.noConfusion h
                    · intro nwc h
                      rcases hr with hr | ⟨nwc₂, hr, hwild⟩
                      · rw [hr] at h; exact PlayResult.noConfusion h
                      · rw [hr] at h
                        cases h
                        constructor
                        · intro w hw
                          simp only [List.head?_cons, Option.some.injEq] at hw
                          exact hwild w hw
                        · intro hnr
                          refine hdir fun c₂ hc => ?_
                          exact hnr c₂ (by simp [hc])
      · -- a playable card was chosen from the hand
        have hP := place_card_spec deck idx discard dir g₁
        rcases hpl : place_card deck idx discard dir g₁ with
            _ | ⟨r₂, di₂, de₂, dir₂, g₃⟩ <;> rw [hpl] at hP
        · simp [free_phase, hhd, hpi, hch, hpl]
        · have heq : free_phase draw discard deck dir wc g =
              some (r₂, draw, di₂, de₂, dir₂, g₃) := by
            simp only [free_phase, hhd, hpi, hch, hpl]
          rw [heq]
          obtain ⟨card, rfl, hcperm, hdir, hr⟩ := hP
          have hperm2 : ((draw ++ (card :: discard) ++ de₂) : List Card).Perm
              (draw ++ discard ++ deck) := by
            have hmid := (perm_play_move card discard de₂ deck hcperm).append_left draw
            simpa [List.append_assoc] using hmid
          refine ⟨hperm2, ?_, ?_, ?_⟩
          · intro h
            rcases hr with hr | ⟨nwc, hr, _⟩ <;> rw [hr] at h <;> exact PlayResult.noConfusion h
          · intro h
            rcases hr with hr | ⟨nwc, hr, _⟩ <;> rw [hr] at h <;> exact PlayResult.noConfusion h
          · intro nwc h
            rcases hr with hr | ⟨nwc₂, hr, hwild⟩
            · rw [hr] at h; exact PlayResult.noConfusion h
            · rw [hr] at h
              cases h
              constructor
              · intro w hw
                simp only [List.head?_cons, Option.some.injEq] at hw
                exact hwild w hw
              · intro hnr
                refine hdir fun c₂ hc => ?_
                exact hnr c₂ (by simp [hc])

/-- Case analysis of Bot::play: cards are conserved across the call, a pass
keeps the top card of the discard pile, and a placed Wild card always binds
a color while a placed non-Reverse card keeps the direction. -/
theorem Bot_play_spec (draw discard deck : List Card) (dir : Int) (is_hot : Bool)
    (wc : Option Color) (g : Rng) :
    match Bot.play draw discard deck dir is_hot wc g with
    | none => True
    | some (r, d', di', de', dir', _) =>
      (d' ++ di' ++ de').Perm (draw ++ discard ++ deck) ∧
      (r = PlayResult.NoPlace → di'.head? = discard.head?) ∧
      (∀ nwc, r = PlayResult.Place nwc →
        (∀ w, di'.head? = some (Card.Wild w) → ∃ col, nwc = some col) ∧
        ((∀ c₂, di'.head? ≠ some (Card.Action Action.Reverse c₂)) → dir' = dir)) := by
  have hFree : ∀ heq : Bot.play draw discard deck dir is_hot wc g =
      free_phase draw discard deck dir wc g,
      match Bot.play draw discard deck dir is_hot wc g with
      | none => True
      | some (r, d', di', de', dir', _) =>
        (d' ++ di' ++ de').Perm (draw ++ discard ++ deck) ∧
        (r = PlayResult.NoPlace → di'.head? = discard.head?) ∧
        (∀ nwc, r = PlayResult.Place nwc →
          (∀ w, di'.head? = some (Card.Wild w) → ∃ col, nwc = some col) ∧
          ((∀ c₂, di'.head? ≠ some (Card.Action Action.Reverse c₂)) → dir' = dir)) := by
    intro heq
    have hF := free_phase_spec draw discard deck dir wc g
    rw [heq]
    rcases hfp : free_phase draw discard deck dir wc g with _ | ⟨r, d', di', de', dir', g'⟩ <;>
      rw [hfp] at hF
    · trivial
    · exact ⟨hF.1, fun h => (hF.2.1 h).1, hF.2.2.2⟩
  cases is_hot with
  | false => exact hFree rfl
  | true =>
    rcases hhd : discard.head? with _ | top
    · have heq : Bot.play draw discard deck dir true wc g = none := by
        simp [Bot.play, hhd]
      rw [heq]
      trivial
    · cases top with
      | Number n c =>
        have hres := hFree (by simp [Bot.play, hhd])
        rw [hhd] at hres
        exact hres
      | Action a c =>
        cases a with
        | Reverse =>
          have hres := hFree (by simp [Bot.play, hhd])
          rw [hhd] at hres
          exact hres
        | Skip =>
          have heq : Bot.play draw discard deck dir true wc g =
              some (PlayResult.NoPlace, draw, discard, deck, dir, g) := by
            simp [Bot.play, hhd]
          rw [heq]
          exact ⟨List.Perm.refl _, fun _ => hhd, fun nwc h => PlayResult.noConfusion h⟩
        | Draw2 =>
          have hT := transfer_cards_perm 2 draw discard deck g
          rcases hres : transfer_cards draw discard deck 2 g with
              _ | ⟨d, di, de, g₂⟩ | ⟨d, di, de, g₂⟩ <;> rw [hres] at hT
          · have heq : Bot.play draw discard deck dir true wc g = none := by
              simp [Bot.play, hhd, hres]
            rw [heq]
            trivial
          · have heq : Bot.play draw discard deck dir true wc g =
                some (PlayResult.Starvation, d, di, de, dir, g₂) := by
              simp [Bot.play, hhd, hres]
            rw [heq]
            exact ⟨hT.2, fun h => PlayResult.noConfusion h,
              fun nwc h => PlayResult.noConfusion h⟩
          · have heq : Bot.play draw discard deck dir true wc g =
                some (PlayResult.NoPlace, d, di, de, dir, g₂) := by
              simp [Bot.play, hhd, hres]
            rw [heq]
            exact ⟨hT.2, fun _ => hhd ▸ hT.1, fun nwc h => PlayResult.noConfusion h⟩
      | Wild w =>
        cases w with
        | ChangeColor =>
          have hres := hFree (by simp [Bot.play, hhd])
          rw [hhd] at hres
          exact hres
        | Draw4 =>
          have hT := transfer_cards_perm 4 draw discard deck g
          rcases hres : transfer_cards draw discard deck 4 g with
              _ | ⟨d, di, de, g₂⟩ | ⟨d, di, de, g₂⟩ <;> rw [hres] at hT
          · have heq : Bot.play draw discard deck dir true wc g = none := by
              simp [Bot.play, hhd, hres]
            rw [heq]
            trivial
          · have heq : Bot.play draw discard deck dir true wc g =
                some (PlayResult.Starvation, d, di, de, dir, g₂) := by
              simp [Bot.play, hhd, hres]
            rw [heq]
            exact ⟨hT.2, fun h => PlayResult.noConfusion h,
              fun nwc h => PlayResult.noConfusion h⟩
          · have heq : Bot.play draw discard deck dir true wc g =
                some (PlayResult.NoPlace, d, di, de, dir, g₂) := by
              simp [Bot.play, hhd, hres]
            rw [heq]
            exact ⟨hT.2, fun _ => hhd ▸ hT.1, fun nwc h => PlayResult.noConfusion h⟩

/-- Setting an index with the value it already holds does not change the
list. -/
theorem set_get_self : ∀ (l : List (List Card)) (i : Nat) (a : List Card),
    l[i]? = some a → l.set i a = l := by
  intro l
  induction l with
  | nil => intro i a h; simp at h
  | cons x xs ih =>
    intro i a h
    cases i with
    | zero =>
      simp only [List.getElem?_cons_zero, Option.some.injEq] at h
      rw [← h]
      rfl
    | succ i =>
      simp only [List.getElem?_cons_succ] at h
      simp [ih i a h]

/-- Swapping the hand at index i for a new one changes the flattened hands
by exactly that swap. -/
theorem flatten_set_perm : ∀ (l : List (List Card)) (i : Nat) (od nw : List Card),
    l[i]? = some od →
    (((l.set i nw).flatten ++ od) : List Card).Perm (l.flatten ++ nw) := by
  intro l
  induction l with
  | nil => intro i od nw h; simp at h
  | cons x xs ih =>
    intro i od nw h
    cases i with
    | zero =>
      simp only [List.getElem?_cons_zero, Option.some.injEq] at h
      rw [← h]
      simp only [List.set_cons_zero, List.flatten_cons]
      have h1 : (((nw ++ xs.flatten) ++ x) : List Card).Perm (x ++ (nw ++ xs.flatten)) :=
        List.perm_append_comm
      have h2 : ((x ++ (nw ++ xs.flatten)) : List Card).Perm (x ++ (xs.flatten ++ nw)) :=
        List.Perm.append_left x List.perm_append_comm
      refine (h1.trans h2).trans ?_
      simp [List.append_assoc]
    | succ i =>
      simp only [List.getElem?_cons_succ] at h
      simp only [List.set_cons_succ, List.flatten_cons]
      have h1 := (ih i od nw h).append_left x
      have h2 : (((x ++ (xs.set i nw).flatten) ++ od) : List Card).Perm
          (x ++ ((xs.set i nw).flatten ++ od)) := by simp [List.append_assoc]
      refine (h2.trans h1).trans ?_
      simp [List.append_assoc]

/-- Conservation for one loop iteration of start: the total multiset of
cards in play is preserved whether the loop continues or breaks. -/
theorem start_step_perm (s : GameState) :
    match start_step s with
    | none => True
    | some (StepResult.next s') => (total_cards s').Perm (total_cards s)
    | some (StepResult.ended _ s') => (total_cards s').Perm (total_cards s) := by
  rcases hget : s.players[s.cur_idx]? with _ | deck
  · simp [start_step, hget]
  · have hB := Bot_play_spec s.draw s.discard deck s.dir s.is_hot s.wild_color s.g
    rcases hbp : Bot.play s.draw s.discard deck s.dir s.is_hot s.wild_color s.g with
        _ | ⟨r, d', di', de', dir', g'⟩ <;> rw [hbp] at hB
    · simp [start_step, hget, hbp]
    · obtain ⟨hperm, -, -⟩ := hB
      have hkey : ((d' ++ di' ++ (s.players.set s.cur_idx de').flatten) : List Card).Perm
          (s.draw ++ s.discard ++ s.players.flatten) := by
        have hjoin := flatten_set_perm s.players s.cur_idx deck de' hget
        have h1 : (((d' ++ di') ++ (s.players.set s.cur_idx de').flatten) ++ deck :
            List Card).Perm ((d' ++ di') ++ ((s.players.set s.cur_idx de').flatten ++ deck)) := by
          simp [List.append_assoc]
        have h2 := hjoin.append_left (d' ++ di')
        have h3 : ((d' ++ di') ++ (s.players.flatten ++ de') : List Card).Perm
            ((d' ++ di') ++ (de' ++ s.players.flatten)) :=
          List.Perm.append_left _ List.perm_append_comm
        have h4 : ((d' ++ di') ++ (de' ++ s.players.flatten) : List Card).Perm
            (((d' ++ di') ++ de') ++ s.players.flatten) := by
          simp [List.append_assoc]
        have h5 := hperm.append_right s.players.flatten
        have h6 : (((s.draw ++ s.discard) ++ deck) ++ s.players.flatten : List Card).Perm
            ((s.draw ++ s.discard) ++ (deck ++ s.players.flatten)) := by
          simp [List.append_assoc]
        have h7 : ((s.draw ++ s.discard) ++ (deck ++ s.players.flatten) : List Card).Perm
            ((s.draw ++ s.discard) ++ (s.players.flatten ++ deck)) :=
          List.Perm.append_left _ List.perm_append_comm
        have h8 : ((s.draw ++ s.discard) ++ (s.players.flatten ++ deck) : List Card).Perm
            (((s.draw ++ s.discard) ++ s.players.flatten) ++ deck) := by
          simp [List.append_assoc]
        have hchain := ((((((h1.trans h2).trans h3).trans h4).trans h5).trans h6).trans
          h7).trans h8
        exact (List.perm_append_right_iff deck).mp hchain
      cases r with
      | Place nwc =>
        rcases hadv : advance_idx s.players.length s.cur_idx dir' with _ | i
        · simp [start_step, hget, hbp, hadv]
        · have heq : start_step s = some (StepResult.next
              { draw := d', discard := di', players := s.players.set s.cur_idx de',
                dir := dir', is_hot := true, wild_color := nwc, cur_idx := i, g := g' }) := by
            simp only [start_step, hget, hbp, hadv]
          rw [heq]
          simpa [total_cards] using hkey
      | NoPlace =>
        rcases hadv : advance_idx s.players.length s.cur_idx dir' with _ | i
        · simp [start_step, hget, hbp, hadv]
        · have heq : start_step s = some (StepResult.next
              { draw := d', discard := di', players := s.players.set s.cur_idx de',
                dir := dir', is_hot := false, wild_color := s.wild_color, cur_idx := i,
                g := g' }) := by
            simp only [start_step, hget, hbp, hadv]
          rw [heq]
          simpa [total_cards] using hkey
      | Win =>
        have heq : start_step s = some (StepResult.ended PlayResult.Win
            { draw := d', discard := di', players := s.players.set s.cur_idx de',
              dir := dir', is_hot := s.is_hot, wild_color := s.wild_color,
              cur_idx := s.cur_idx, g := g' }) := by
          simp only [start_step, hget, hbp]
        rw [heq]
        simpa [total_cards] using hkey
      | Starvation =>
        have heq : start_step s = some (StepResult.ended PlayResult.Starvation
            { draw := d', discard := di', players := s.players.set s.cur_idx de',
              dir := dir', is_hot := s.is_hot, wild_color := s.wild_color,
              cur_idx := s.cur_idx, g := g' }) := by
          simp only [start_step, hget, hbp]
        rw [heq]
        simpa [total_cards] using hkey

/-- The wild-color binding contract is preserved by every continuing loop
iteration of start. -/
theorem start_step_wild_inv (s : GameState) (hinv : wild_inv s) :
    match start_step s with
    | none => True
    | some (StepResult.next s') => wild_inv s'
    | some (StepResult.ended _ _) => True := by
  rcases hget : s.players[s.cur_idx]? with _ | deck
  · simp [start_step, hget]
  · have hB := Bot_play_spec s.draw s.discard deck s.dir s.is_hot s.wild_color s.g
    rcases hbp : Bot.play s.draw s.discard deck s.dir s.is_hot s.wild_color s.g with
        _ | ⟨r, d', di', de', dir', g'⟩ <;> rw [hbp] at hB
    · simp [start_step, hget, hbp]
    · obtain ⟨-, hnp, hpl⟩ := hB
      cases r with
      | Place nwc =>
        rcases hadv : advance_idx s.players.length s.cur_idx dir' with _ | i
        · simp [start_step, hget, hbp, hadv]
        · have heq : start_step s = some (StepResult.next
              { draw := d', discard := di', players := s.players.set s.cur_idx de',
                dir := dir', is_hot := true, wild_color := nwc, cur_idx := i, g := g' }) := by
            simp only [start_step, hget, hbp, hadv]
          rw [heq]
          intro w hw
          obtain ⟨col, hcol⟩ := (hpl nwc rfl).1 w hw
          simp [hcol]
      | NoPlace =>
        rcases hadv : advance_idx s.players.length s.cur_idx dir' with _ | i
        · simp [start_step, hget, hbp, hadv]
        · have heq : start_step s = some (StepResult.next
              { draw := d', discard := di', players := s.players.set s.cur_idx de',
                dir := dir', is_hot := false, wild_color := s.wild_color, cur_idx := i,
                g := g' }) := by
            simp only [start_step, hget, hbp, hadv]
          rw [heq]
          intro w hw
          exact hinv w (by rw [← hnp rfl]; exact hw)
      | Win =>
        have heq : start_step s = some (StepResult.ended PlayResult.Win
            { draw := d', discard := di', players := s.players.set s.cur_idx de',
              dir := dir', is_hot := s.is_hot, wild_color := s.wild_color,
              cur_idx := s.cur_idx, g := g' }) := by
          simp only [start_step, hget, hbp]
        rw [heq]
        trivial
      | Starvation =>
        have heq : start_step s = some (StepResult.ended PlayResult.Starvation
            { draw := d', discard := di', players := s.players.set s.cur_idx de',
              dir := dir', is_hot := s.is_hot, wild_color := s.wild_color,
              cur_idx := s.cur_idx, g := g' }) := by
          simp only [start_step, hget, hbp]
        rw [heq]
        trivial

/-- On a draw pile holding only wild cards, the seeding loop of
init_discard_pile never returns, whatever fuel it is given. -/
theorem init_discard_all_wild : ∀ (fuel : Nat) (discard draw : List Card) (g : Rng),
    (∀ c ∈ draw, ∃ w, c = Card.Wild w) →
    init_discard_pile_fuel fuel discard draw g = none := by
  intro fuel
  induction fuel with
  | zero => intro discard draw g _; rfl
  | succ fuel ih =>
    intro discard draw g hall
    cases draw with
    | nil => rfl
    | cons a as =>
      obtain ⟨w, rfl⟩ := hall a (List.mem_cons_self a as)
      rcases hsh : shuffle g (Card.Wild w :: as) with ⟨draw', g'⟩
      have heq : init_discard_pile_fuel (fuel + 1) discard (Card.Wild w :: as) g =
          init_discard_pile_fuel fuel discard draw' g' := by
        simp only [init_discard_pile_fuel, List.head?_cons, hsh]
      rw [heq]
      refine ih discard draw' g' fun c hc => ?_
      have hperm := shuffle_perm g (Card.Wild w :: as)
      rw [hsh] at hperm
      exact hall c (hperm.mem_iff.mp hc)

/-- On success, init_discard_pile pushes one non-wild card onto the discard
pile and conserves the cards of the two piles. -/
theorem init_discard_pile_spec : ∀ (fuel : Nat) (discard draw : List Card) (g : Rng),
    match init_discard_pile_fuel fuel discard draw g with
    | none => True
    | some (di', dr', _) =>
      ∃ c, (∀ w, c ≠ Card.Wild w) ∧ di' = c :: discard ∧
        ((dr' ++ di') : List Card).Perm (draw ++ discard) := by
  intro fuel
  induction fuel with
  | zero => intro discard draw g; trivial
  | succ fuel ih =>
    intro discard draw g
    cases draw with
    | nil => simp [init_discard_pile_fuel]
    | cons a as =>
      cases a with
      | Wild w =>
        rcases hsh : shuffle g (Card.Wild w :: as) with ⟨draw', g'⟩
        have heq : init_discard_pile_fuel (fuel + 1) discard (Card.Wild w :: as) g =
            init_discard_pile_fuel fuel discard draw' g' := by
          simp only [init_discard_pile_fuel, List.head?_cons, hsh]
        rw [heq]
        have hI := ih discard draw' g'
        rcases hr : init_discard_pile_fuel fuel discard draw' g' with _ | ⟨di', dr', g₂⟩ <;>
          rw [hr] at hI
        · trivial
        · obtain ⟨c, hnw, hdi, hperm⟩ := hI
          have hshp := shuffle_perm g (Card.Wild w :: as)
          rw [hsh] at hshp
          exact ⟨c, hnw, hdi, hperm.trans (hshp.append_right discard)⟩
      | Number n c =>
        have heq : init_discard_pile_fuel (fuel + 1) discard (Card.Number n c :: as) g =
            some (Card.Number n c :: discard, as, g) := by
          simp only [init_discard_pile_fuel, List.head?_cons, List.tail_cons]
        rw [heq]
        exact ⟨Card.Number n c, fun w h => Card.noConfusion h, rfl, List.perm_middle⟩
      | Action a c =>
        have heq : init_discard_pile_fuel (fuel + 1) discard (Card.Action a c :: as) g =
            some (Card.Action a c :: discard, as, g) := by
          simp only [init_discard_pile_fuel, List.head?_cons, List.tail_cons]
        rw [heq]
        exact ⟨Card.Action a c, fun w h => Card.noConfusion h, rfl, List.perm_middle⟩

/-- The turn-advance expression agrees with index arithmetic modulo the
player count over the integers. -/
theorem advance_idx_emod (len cur : Nat) (d : Int) (i : Nat) (hlen : 0 < len)
    (h : advance_idx len cur d = some i) :
    (i : Int) = ((cur : Int) + d) % (len : Int) ∧ i < len := by
  unfold advance_idx at h
  by_cases h127 : len ≤ 127
  · rw [if_pos h127] at h
    by_cases hnn : 0 ≤ (len : Int) + d
    · rw [if_pos hnn] at h
      have hi : i = (cur + ((len : Int) + d).toNat) % len := by
        exact (Option.some.injEq _ _).mp h.symm
      subst hi
      constructor
      · push_cast
        rw [Int.toNat_of_nonneg hnn]
        have hre : (cur : Int) + ((len : Int) + d) = ((cur : Int) + d) + (len : Int) * 1 := by
          ring
        rw [hre, Int.add_mul_emod_self_left]
      · exact Nat.mod_lt _ hlen
    · rw [if_neg hnn] at h
      cases h
  · rw [if_neg h127] at h
    cases h

/-- Mod-add-mod for the second advance step. -/
theorem emod_add_emod_int (a b n : Int) : (a % n + b) % n = (a + b) % n :=
  Int.emod_add_emod a n b

/-! Claim C1. -/

/-- C1 counterexample: a transfer of 3 cards from an empty draw pile with a
two-card discard pile recycles (so the draw pile emptied while the discard
pile had more than one card) and still ends in Starvation, with the discard
pile holding two cards, not one, at call time.  This refutes both halves of
the claim: Starvation is signalled although the discard pile did not have
exactly one card at the call, and a mid-transfer recycle did not make the
transfer complete successfully. -/
theorem C1_counterexample :
    transfer_cards [] [Card.Number 0 Color.Red, Card.Number 1 Color.Red] [] 3 g0 =
      .starved [] [Card.Number 0 Color.Red] [Card.Number 1 Color.Red] ⟨zeroTape, 1⟩ ∧
    ([Card.Number 0 Color.Red, Card.Number 1 Color.Red] : List Card).length ≠ 1 :=
  ⟨rfl, by decide⟩

/-- C1 (amended): on a nonempty discard pile, transfer_cards signals
Starvation exactly when the requested amount exceeds the cards available
(draw pile plus discard pile minus its top); in that case the discard pile
is left with exactly the former top card.  A completed transfer moves
exactly amount cards into the hand, and whenever the draw pile emptied
mid-transfer the discard pile is left with exactly the former top card. -/
theorem C1_transfer_starvation (n : Nat) (draw deck : List Card) (top : Card)
    (rest : List Card) (g : Rng) :
    ((∃ de g', transfer_cards draw (top :: rest) deck n g = .starved [] [top] de g') ↔
      draw.length + (top :: rest).length - 1 < n) ∧
    (∀ d' di' de' g', transfer_cards draw (top :: rest) deck n g = .done d' di' de' g' →
      n ≤ draw.length + (top :: rest).length - 1 ∧ de'.length = deck.length + n ∧
        (draw.length < n → di' = [top])) := by
  have h := transfer_cards_spec n draw deck top rest g
  constructor
  · constructor
    · rintro ⟨de, g', heq⟩
      rw [heq] at h
      simp only [List.length_cons]
      omega
    · intro hlt
      simp only [List.length_cons] at hlt
      rcases hres : transfer_cards draw (top :: rest) deck n g with
          _ | ⟨d', di', de', g'⟩ | ⟨d', di', de', g'⟩ <;> rw [hres] at h
      · exact absurd h (by simp)
      · obtain ⟨h1, h2, -, -, -⟩ := h
        exact ⟨de', g', by rw [h1, h2]⟩
      · obtain ⟨h1, -⟩ := h
        omega
  · intro d' di' de' g' heq
    rw [heq] at h
    refine ⟨by simp only [List.length_cons]; omega, h.2.2.1, h.2.2.2.2.1⟩

/-- C1 witness: the counterexample input, settled through the amended
theorem. -/
theorem C1_witness :
    ∃ de g', transfer_cards [] (Card.Number 0 Color.Red :: [Card.Number 1 Color.Red]) [] 3 g0 =
      .starved [] [Card.Number 0 Color.Red] de g' :=
  (C1_transfer_starvation 3 [] [] (Card.Number 0 Color.Red) [Card.Number 1 Color.Red] g0).1.mpr
    (by decide)

/-! Claim C2. -/

/-- C2 counterexample: the generated card set has 108 cards, not the 84 the
claim states. -/
theorem C2_counterexample : (gen_draw_pile g0).1.length = 108 ∧ (108 : Nat) ≠ 84 :=
  ⟨gen_draw_pile_length g0, by decide⟩

/-- C2 (amended): for every generator state, the generated pile contains,
per color, one rank-0 number card, two of each rank 1 to 9 and two of each
action kind, plus four of each wild kind; that is 100 colored cards and 8
wild cards, 108 in total (the claimed per-kind multiplicities are right,
the claimed totals 76, and 84 are not). -/
theorem C2_pile_composition (g : Rng) :
    (∀ c : Color, (gen_draw_pile g).1.count (Card.Number 0 c) = 1 ∧
      (∀ k : Nat, 1 ≤ k → k ≤ 9 → (gen_draw_pile g).1.count (Card.Number k c) = 2) ∧
      (∀ a : Action, (gen_draw_pile g).1.count (Card.Action a c) = 2)) ∧
    (∀ w : WildAction, (gen_draw_pile g).1.count (Card.Wild w) = 4) ∧
    (gen_draw_pile g).1.countP (fun card => (cardColor card).isSome) = 100 ∧
    (gen_draw_pile g).1.countP (fun card => !(cardColor card).isSome) = 8 ∧
    (gen_draw_pile g).1.length = 108 := by
  have hp := gen_draw_pile_perm g
  refine ⟨?_, ?_, ?_, ?_, gen_draw_pile_length g⟩
  · intro c
    refine ⟨?_, ?_, ?_⟩
    · rw [hp.count_eq]
      cases c <;> decide
    · intro k h1 h9
      rw [hp.count_eq]
      interval_cases k <;> cases c <;> decide
    · intro a
      rw [hp.count_eq]
      cases a <;> cases c <;> decide
  · intro w
    rw [hp.count_eq]
    cases w <;> decide
  · rw [hp.countP_eq]
    decide
  · rw [hp.countP_eq]
    decide

/-- C2 witness: concrete multiplicities at the zero-stream generator. -/
theorem C2_witness :
    (gen_draw_pile g0).1.count (Card.Number 5 Color.Blue) = 2 ∧
    (gen_draw_pile g0).1.length = 108 :=
  ⟨((C2_pile_composition g0).1 Color.Blue).2.1 5 (by decide) (by decide),
    (C2_pile_composition g0).2.2.2.2⟩

/-! Claim C3. -/

/-- C3: Card::accepts follows the case table exactly.  Number on Number is
legal iff same color or same rank; Number and Action mix iff same color;
Action on Action iff same color or same action kind; a Wild candidate is
always accepted; a colored candidate over a Wild top with a bound color is
accepted iff its color is the bound one; and a candidate of the same color
as the top is always accepted. -/
theorem C3_accepts_table :
    (∀ (n : Nat) (c : Color) (n' : Nat) (c' : Color) (wc : Option Color),
      (Card.Number n c).accepts (Card.Number n' c') wc = some (decide (c = c' ∨ n = n'))) ∧
    (∀ (n : Nat) (c : Color) (a : Action) (c' : Color) (wc : Option Color),
      (Card.Number n c).accepts (Card.Action a c') wc = some (decide (c = c'))) ∧
    (∀ (a : Action) (c : Color) (n : Nat) (c' : Color) (wc : Option Color),
      (Card.Action a c).accepts (Card.Number n c') wc = some (decide (c = c'))) ∧
    (∀ (a : Action) (c : Color) (a' : Action) (c' : Color) (wc : Option Color),
      (Card.Action a c).accepts (Card.Action a' c') wc = some (decide (c = c' ∨ a = a'))) ∧
    (∀ (top : Card) (w : WildAction) (wc : Option Color),
      top.accepts (Card.Wild w) wc = some true) ∧
    (∀ (w : WildAction) (n : Nat) (c col : Color),
      (Card.Wild w).accepts (Card.Number n c) (some col) = some (decide (c = col))) ∧
    (∀ (w : WildAction) (a : Action) (c col : Color),
      (Card.Wild w).accepts (Card.Action a c) (some col) = some (decide (c = col))) ∧
    (∀ (top cand : Card) (wc : Option Color) (c : Color),
      cardColor top = some c → cardColor cand = some c → top.accepts cand wc = some true) := by
  refine ⟨fun _ _ _ _ _ => rfl, fun _ _ _ _ _ => rfl, fun _ _ _ _ _ => rfl,
    fun _ _ _ _ _ => rfl, fun top w wc => ?_, fun _ _ _ _ => rfl, fun _ _ _ _ => rfl,
    fun top cand wc c h1 h2 => ?_⟩
  · cases top <;> rfl
  · cases top <;> cases cand <;>
      simp only [cardColor, Option.some.injEq, reduceCtorEq] at h1 h2 <;>
      subst h1 <;> subst h2 <;> simp [Card.accepts]

/-- C3 witness: the same-color clause at a concrete pair. -/
theorem C3_witness :
    (Card.Number 5 Color.Red).accepts (Card.Action Action.Skip Color.Red) none = some true :=
  C3_accepts_table.2.2.2.2.2.2.2 (Card.Number 5 Color.Red) (Card.Action Action.Skip Color.Red)
    none Color.Red rfl rfl

/-! Claim C7. -/

/-- C7 (code bug): the seeding loop of init_discard_pile has no reshuffle
bound and no DeckExhausted error: on an all-wild draw pile it reshuffles
forever.  For every fuel bound on the number of loop iterations, the
modelled loop fails to return on a pile of two wild cards. -/
theorem C7_seed_loop_diverges (fuel : Nat) (discard : List Card) (g : Rng) :
    init_discard_pile_fuel fuel discard
      [Card.Wild WildAction.ChangeColor, Card.Wild WildAction.Draw4] g = none :=
  init_discard_all_wild fuel discard _ g (by
    intro c hc
    rcases List.mem_cons.mp hc with rfl | hc
    · exact ⟨_, rfl⟩
    · rcases List.mem_cons.mp hc with rfl | hc
      · exact ⟨_, rfl⟩
      · simp at hc)

/-! Claim C9. -/

/-- C9: every operation needing randomness takes the generator explicitly
and depends on nothing but its inputs and the generator output stream: two
generators with identical streams give identical generated piles and an
identical engine run. -/
theorem C9_determinism (t₁ t₂ : Nat → Nat) (p : Nat) (h : ∀ i, t₁ i = t₂ i) :
    gen_draw_pile ⟨t₁, p⟩ = gen_draw_pile ⟨t₂, p⟩ ∧
    (∀ bot_count fuel seedFuel, run_game bot_count fuel seedFuel ⟨t₁, p⟩ =
      run_game bot_count fuel seedFuel ⟨t₂, p⟩) := by
  have ht : t₁ = t₂ := funext h
  subst ht
  exact ⟨rfl, fun _ _ _ => rfl⟩

/-- C9 witness: the determinism theorem applied to the zero stream. -/
theorem C9_witness :
    gen_draw_pile ⟨zeroTape, 0⟩ = gen_draw_pile ⟨zeroTape, 0⟩ ∧
    (∀ bot_count fuel seedFuel, run_game bot_count fuel seedFuel ⟨zeroTape, 0⟩ =
      run_game bot_count fuel seedFuel ⟨zeroTape, 0⟩) :=
  C9_determinism zeroTape zeroTape 0 (fun _ => rfl)

/-! Claim C10. -/

/-- C10 counterexample: at the largest bot count the interface allows
(MAX_BOTS = 9), dealing the initial hands from the generated 108-card pile
succeeds and leaves 38 cards in the draw pile, so the claimed reachable
panic state (draw pile and discard pile both empty) is not reached: a panic
inside init_players would surface as a failed (none) result. -/
theorem C10_counterexample :
    (match init_players 9 (gen_draw_pile g0).1 [] g0 with
     | some (_, dr, _, _) => dr.length = 38 ∧ (38 : Nat) ≠ 0
     | none => False) := by
  obtain ⟨ps, dr, hgo, hlen, -, -⟩ :=
    init_players_go_spec 10 true (gen_draw_pile g0).1 [] g0
      (by rw [gen_draw_pile_length]; omega)
  have heq : init_players 9 (gen_draw_pile g0).1 [] g0 = some (ps, dr, [], g0) := hgo
  rw [heq]
  refine ⟨?_, by decide⟩
  rw [hlen, gen_draw_pile_length]

/-- C10 (amended): transfer_cards does panic, rather than succeed or signal
Starvation, when called with a positive amount while both piles are empty;
and init_players does call transfer_cards with an empty discard pile before
init_discard_pile runs.  But the generated pile holds 108 cards and the
interface caps the bot count at 9, so at most 70 cards are dealt: dealing
always succeeds with at least 38 cards left, and the both-empty panic state
is never reached in start. -/
theorem C10_panic_unreachable :
    (∀ (deck : List Card) (n : Nat) (g : Rng),
      transfer_cards [] [] deck (n + 1) g = .panic) ∧
    (∀ (g g₂ : Rng) (bot_count : Nat), bot_count ≤ 9 →
      ∃ ps dr g₃, init_players bot_count (gen_draw_pile g).1 [] g₂ = some (ps, dr, [], g₃) ∧
        dr.length = 108 - 7 * (bot_count + 1) ∧ 0 < dr.length) := by
  refine ⟨fun deck n g => rfl, fun g g₂ bot_count hbc => ?_⟩
  obtain ⟨ps, dr, hgo, hlen, -, -⟩ :=
    init_players_go_spec (bot_count + 1) true (gen_draw_pile g).1 [] g₂
      (by rw [gen_draw_pile_length]; omega)
  refine ⟨ps, dr, g₂, hgo, ?_, ?_⟩
  · rw [hlen, gen_draw_pile_length]
  · rw [hlen, gen_draw_pile_length]
    omega

/-- C10 witness: the panic equation and the dealing bound at concrete
inputs. -/
theorem C10_witness :
    transfer_cards [] [] [Card.Number 3 Color.Green] 1 g0 = .panic ∧
    ∃ ps dr g₃, init_players 9 (gen_draw_pile g0).1 [] g0 = some (ps, dr, [], g₃) ∧
      dr.length = 108 - 7 * (9 + 1) ∧ 0 < dr.length :=
  ⟨C10_panic_unreachable.1 [Card.Number 3 Color.Green] 0 g0,
    C10_panic_unreachable.2 g0 g0 9 (by decide)⟩

/-- A list of 7-card hands flattens to 7 cards per hand. -/
theorem flatten_length_const : ∀ (l : List (List Card)), (∀ x ∈ l, x.length = 7) →
    l.flatten.length = 7 * l.length := by
  intro l
  induction l with
  | nil => intro _; simp
  | cons x xs ih =>
    intro h
    have hx := h x (List.mem_cons_self x xs)
    have hxs := ih fun y hy => h y (List.mem_cons_of_mem x hy)
    simp only [List.flatten_cons, List.length_append, List.length_cons, hx, hxs]
    ring

/-! Claim C6. -/

/-- C6 counterexample: dealing with bot_count = 1 from a 14-card draw pile
consumes all 14 cards but only one 7-card hand enters the game; the first
dealt hand (meant for the commented-out human player) is dropped, so the
multiset of cards across the piles and the hands in the game is not
preserved by init_players. -/
theorem C6_counterexample :
    init_players 1 (List.replicate 14 (Card.Number 1 Color.Red)) [] g0 =
      some ([List.replicate 7 (Card.Number 1 Color.Red)], [], [], g0) ∧
    ¬ ((([] ++ [] ++ ([List.replicate 7 (Card.Number 1 Color.Red)] :
        List (List Card)).flatten) : List Card).Perm
        (List.replicate 14 (Card.Number 1 Color.Red) ++ [])) := by
  refine ⟨rfl, fun hp => ?_⟩
  have hl := hp.length_eq
  simp at hl

/-- C6 (amended): transfer_cards, init_discard_pile, Bot::play and every
loop iteration of start preserve the total multiset of cards across the
draw pile, the discard pile and the hands in the game; init_players instead
preserves it only up to one extra dropped hand (the hand dealt for the
commented-out human player), which holds exactly 7 cards whenever the draw
pile had enough cards for all deals. -/
theorem C6_conservation :
    (∀ (n : Nat) (draw discard deck : List Card) (g : Rng),
      match transfer_cards draw discard deck n g with
      | .panic => True
      | .starved d di de _ => ((d ++ di ++ de) : List Card).Perm (draw ++ discard ++ deck)
      | .done d di de _ => ((d ++ di ++ de) : List Card).Perm (draw ++ discard ++ deck)) ∧
    (∀ (fuel : Nat) (discard draw : List Card) (g : Rng),
      match init_discard_pile_fuel fuel discard draw g with
      | none => True
      | some (di, dr, _) => ((dr ++ di) : List Card).Perm (draw ++ discard)) ∧
    (∀ (draw discard deck : List Card) (dir : Int) (is_hot : Bool) (wc : Option Color)
        (g : Rng),
      match Bot.play draw discard deck dir is_hot wc g with
      | none => True
      | some (_, d, di, de, _, _) =>
        ((d ++ di ++ de) : List Card).Perm (draw ++ discard ++ deck)) ∧
    (∀ s : GameState,
      match start_step s with
      | none => True
      | some (StepResult.next s') => (total_cards s').Perm (total_cards s)
      | some (StepResult.ended _ s') => (total_cards s').Perm (total_cards s)) ∧
    (∀ (bot_count : Nat) (draw discard : List Card) (g : Rng),
      match init_players bot_count draw discard g with
      | none => True
      | some (ps, dr, di, _) =>
        ∃ dropped : List Card,
          ((dr ++ di ++ (ps.flatten ++ dropped)) : List Card).Perm (draw ++ discard) ∧
          (7 * (bot_count + 1) ≤ draw.length → dropped.length = 7)) := by
  refine ⟨?_, ?_, ?_, fun s => start_step_perm s, ?_⟩
  · intro n draw discard deck g
    have h := transfer_cards_perm n draw discard deck g
    rcases hres : transfer_cards draw discard deck n g with
        _ | ⟨d, di, de, g'⟩ | ⟨d, di, de, g'⟩ <;> rw [hres] at h
    · trivial
    · exact h.2
    · exact h.2
  · intro fuel discard draw g
    have h := init_discard_pile_spec fuel discard draw g
    rcases hres : init_discard_pile_fuel fuel discard draw g with _ | ⟨di, dr, g'⟩ <;>
      rw [hres] at h
    · trivial
    · obtain ⟨c, -, -, hperm⟩ := h
      exact hperm
  · intro draw discard deck dir is_hot wc g
    have h := Bot_play_spec draw discard deck dir is_hot wc g
    rcases hres : Bot.play draw discard deck dir is_hot wc g with
        _ | ⟨r, d, di, de, dir', g'⟩ <;> rw [hres] at h
    · trivial
    · exact h.1
  · intro bot_count draw discard g
    have h := init_players_go_perm (bot_count + 1) true draw discard g
    rcases hres : init_players bot_count draw discard g with _ | ⟨ps, dr, di, g'⟩
    · trivial
    · have hres' : init_players_go (bot_count + 1) true draw discard g =
          some (ps, dr, di, g') := hres
      rw [hres'] at h
      obtain ⟨dropped, -, hperm⟩ := h
      refine ⟨dropped, hperm, fun henough => ?_⟩
      obtain ⟨ps₂, dr₂, hgo₂, hlen₂, hps₂, hsz₂⟩ :=
        init_players_go_spec (bot_count + 1) true draw discard g henough
      have hinj := hres'.symm.trans hgo₂
      simp only [Option.some.injEq, Prod.mk.injEq] at hinj
      obtain ⟨hps_eq, hdr_eq, hdi_eq, -⟩ := hinj
      subst hps_eq
      subst hdr_eq
      subst hdi_eq
      have hflat : ps.flatten.length = 7 * ps.length := flatten_length_const ps hsz₂
      have hlp := hperm.length_eq
      simp only [List.length_append] at hlp
      simp only [if_pos] at hps₂
      omega

/-- C6 witness: conservation of a concrete transfer through the amended
theorem. -/
theorem C6_witness :
    (match transfer_cards [Card.Number 2 Color.Blue] [Card.Number 0 Color.Red]
        [Card.Number 7 Color.Green] 1 g0 with
      | .panic => True
      | .starved d di de _ =>
        ((d ++ di ++ de) : List Card).Perm
          ([Card.Number 2 Color.Blue] ++ [Card.Number 0 Color.Red] ++
            [Card.Number 7 Color.Green])
      | .done d di de _ =>
        ((d ++ di ++ de) : List Card).Perm
          ([Card.Number 2 Color.Blue] ++ [Card.Number 0 Color.Red] ++
            [Card.Number 7 Color.Green])) :=
  C6_conservation.1 1 [Card.Number 2 Color.Blue] [Card.Number 0 Color.Red]
    [Card.Number 7 Color.Green] g0

/-! Claim C8. -/

/-- C8: under the precondition that a color is bound whenever the top card
is a Wild, Card::accepts never reaches the unbound unwrap; the binding
contract is an invariant of every continuing loop iteration of start; and
the seeded discard pile starts with a non-wild top card, so the contract
holds at loop entry with no color bound. -/
theorem C8_wild_binding_safety :
    (∀ (top cand : Card) (wc : Option Color),
      (∀ w, top = Card.Wild w → wc.isSome = true) →
      (top.accepts cand wc).isSome = true) ∧
    (∀ s : GameState, wild_inv s →
      match start_step s with
      | none => True
      | some (StepResult.next s') => wild_inv s'
      | some (StepResult.ended _ _) => True) ∧
    (∀ (fuel : Nat) (discard draw : List Card) (g : Rng) (di dr : List Card) (g₂ : Rng),
      init_discard_pile_fuel fuel discard draw g = some (di, dr, g₂) →
      ∀ w : WildAction, di.head? ≠ some (Card.Wild w)) := by
  refine ⟨?_, fun s hinv => start_step_wild_inv s hinv, ?_⟩
  · intro top cand wc hpre
    cases top with
    | Wild w =>
      have hsome := hpre w rfl
      rcases wc with _ | col
      · simp at hsome
      · cases cand <;> simp [Card.accepts]
    | Number n c => cases cand <;> simp [Card.accepts]
    | Action a c => cases cand <;> simp [Card.accepts]
  · intro fuel discard draw g di dr g₂ heq w
    have h := init_discard_pile_spec fuel discard draw g
    rw [heq] at h
    obtain ⟨c, hnw, hdi, -⟩ := h
    rw [hdi]
    simp only [List.head?_cons, ne_eq, Option.some.injEq]
    exact fun hcw => hnw w hcw

/-- C8 witness: the three clauses at concrete inputs. -/
theorem C8_witness :
    ((Card.Wild WildAction.ChangeColor).accepts (Card.Number 3 Color.Red)
      (some Color.Red)).isSome = true ∧
    (match start_step skip_hot_state with
      | none => True
      | some (StepResult.next s') => wild_inv s'
      | some (StepResult.ended _ _) => True) ∧
    (∀ w : WildAction,
      ([Card.Number 1 Color.Red] : List Card).head? ≠ some (Card.Wild w)) :=
  ⟨C8_wild_binding_safety.1 _ _ _ (fun _ _ => rfl),
    C8_wild_binding_safety.2.1 _ (by intro w hw; simp [skip_hot_state] at hw),
    C8_wild_binding_safety.2.2 1 [] [Card.Number 1 Color.Red] g0
      [Card.Number 1 Color.Red] [] g0 rfl⟩

/-! Claim C4. -/

/-- C4: with the hot flag set and a Draw2 (resp. Draw4) top card, Bot::play
runs transfer_cards for exactly 2 (resp. 4) cards: on success the hand grew
by exactly that many cards and the turn ends with NoPlace (no play); if the
transfer starves, the play result is Starvation, and one loop iteration of
start on such a state ends the game at once in the no-winner outcome. -/
theorem C4_forced_draw :
    (∀ (c : Color) (draw rest deck : List Card) (dir : Int) (wc : Option Color) (g : Rng),
      match transfer_cards draw (Card.Action Action.Draw2 c :: rest) deck 2 g with
      | .panic => Bot.play draw (Card.Action Action.Draw2 c :: rest) deck dir true wc g = none
      | .starved d di de g' =>
        Bot.play draw (Card.Action Action.Draw2 c :: rest) deck dir true wc g =
          some (PlayResult.Starvation, d, di, de, dir, g')
      | .done d di de g' =>
        Bot.play draw (Card.Action Action.Draw2 c :: rest) deck dir true wc g =
          some (PlayResult.NoPlace, d, di, de, dir, g') ∧ de.length = deck.length + 2) ∧
    (∀ (draw rest deck : List Card) (dir : Int) (wc : Option Color) (g : Rng),
      match transfer_cards draw (Card.Wild WildAction.Draw4 :: rest) deck 4 g with
      | .panic => Bot.play draw (Card.Wild WildAction.Draw4 :: rest) deck dir true wc g = none
      | .starved d di de g' =>
        Bot.play draw (Card.Wild WildAction.Draw4 :: rest) deck dir true wc g =
          some (PlayResult.Starvation, d, di, de, dir, g')
      | .done d di de g' =>
        Bot.play draw (Card.Wild WildAction.Draw4 :: rest) deck dir true wc g =
          some (PlayResult.NoPlace, d, di, de, dir, g') ∧ de.length = deck.length + 4) ∧
    (∀ (s s' : GameState) (fuel : Nat),
      start_step s = some (StepResult.ended PlayResult.Starvation s') →
      start_loop (fuel + 1) s = some (Outcome.noWinner, s')) ∧
    (∀ (s : GameState) (deck : List Card) (amount : Nat) (d di de : List Card) (g' : Rng),
      s.players[s.cur_idx]? = some deck → s.is_hot = true →
      ((∃ c, s.discard.head? = some (Card.Action Action.Draw2 c)) ∧ amount = 2 ∨
        s.discard.head? = some (Card.Wild WildAction.Draw4) ∧ amount = 4) →
      transfer_cards s.draw s.discard deck amount s.g = .starved d di de g' →
      ∃ s', start_step s = some (StepResult.ended PlayResult.Starvation s') ∧
        ∀ fuel, start_loop (fuel + 1) s = some (Outcome.noWinner, s')) := by
  have hloop : ∀ (s s' : GameState) (fuel : Nat),
      start_step s = some (StepResult.ended PlayResult.Starvation s') →
      start_loop (fuel + 1) s = some (Outcome.noWinner, s') := by
    intro s s' fuel hstep
    simp only [start_loop, hstep]
  refine ⟨?_, ?_, hloop, ?_⟩
  · intro c draw rest deck dir wc g
    have hs := transfer_cards_spec 2 draw deck (Card.Action Action.Draw2 c) rest g
    rcases hres : transfer_cards draw (Card.Action Action.Draw2 c :: rest) deck 2 g with
        _ | ⟨d, di, de, g'⟩ | ⟨d, di, de, g'⟩ <;> rw [hres] at hs
    · exact absurd hs (by simp)
    · simp [Bot.play, hres]
    · exact ⟨by simp [Bot.play, hres], hs.2.2.1⟩
  · intro draw rest deck dir wc g
    have hs := transfer_cards_spec 4 draw deck (Card.Wild WildAction.Draw4) rest g
    rcases hres : transfer_cards draw (Card.Wild WildAction.Draw4 :: rest) deck 4 g with
        _ | ⟨d, di, de, g'⟩ | ⟨d, di, de, g'⟩ <;> rw [hres] at hs
    · exact absurd hs (by simp)
    · simp [Bot.play, hres]
    · exact ⟨by simp [Bot.play, hres], hs.2.2.1⟩
  · intro s deck amount d di de g' hget hhot hkind htr
    have hplay : Bot.play s.draw s.discard deck s.dir s.is_hot s.wild_color s.g =
        some (PlayResult.Starvation, d, di, de, s.dir, g') := by
      rcases hdis : s.discard with _ | ⟨top, rest⟩
      · rcases hkind with ⟨⟨c, hc⟩, -⟩ | ⟨hc, -⟩ <;> rw [hdis] at hc <;> simp at hc
      · rcases hkind with ⟨⟨c, hc⟩, rfl⟩ | ⟨hc, rfl⟩ <;> rw [hdis] at hc htr <;>
          simp only [List.head?_cons, Option.some.injEq] at hc <;> subst hc <;>
          rw [hhot] <;> simp [Bot.play, htr]
    have hstep : start_step s = some (StepResult.ended PlayResult.Starvation
        { draw := d, discard := di, players := s.players.set s.cur_idx de, dir := s.dir,
          is_hot := s.is_hot, wild_color := s.wild_color, cur_idx := s.cur_idx, g := g' }) := by
      simp only [start_step, hget, hplay]
    exact ⟨_, hstep, fun fuel => hloop s _ fuel hstep⟩

/-- C4 witness: a starving forced draw at a concrete hot Draw2 state ends
the loop with no winner. -/
theorem C4_witness :
    ∃ s', start_step draw2_starved_state = some (StepResult.ended PlayResult.Starvation s') ∧
      ∀ fuel, start_loop (fuel + 1) draw2_starved_state = some (Outcome.noWinner, s') :=
  C4_forced_draw.2.2.2 draw2_starved_state [] 2 [] [Card.Action Action.Draw2 Color.Red] []
    g0 rfl rfl (Or.inl ⟨⟨Color.Red, rfl⟩, rfl⟩) rfl

/-! Claim C5. -/

/-- C5: when the player at index P places a Skip card (a continuing loop
step whose resulting state is hot with a Skip top), the direction is
unchanged and the turn moves to index (P + d) mod N.  That next player
takes no action at all: the piles, the hands, the direction and the wild
binding are untouched, and the next free decision (hot flag cleared) lies
with the player at index (P + 2 d) mod N. -/
theorem C5_skip_semantics (s s₁ : GameState) (c : Color)
    (hplay : start_step s = some (StepResult.next s₁))
    (hhot : s₁.is_hot = true)
    (hskip : s₁.discard.head? = some (Card.Action Action.Skip c)) :
    s₁.dir = s.dir ∧
    (s₁.cur_idx : Int) = ((s.cur_idx : Int) + s.dir) % (s.players.length : Int) ∧
    ∃ s₂, start_step s₁ = some (StepResult.next s₂) ∧
      s₂.draw = s₁.draw ∧ s₂.discard = s₁.discard ∧ s₂.players = s₁.players ∧
      s₂.dir = s₁.dir ∧ s₂.wild_color = s₁.wild_color ∧ s₂.is_hot = false ∧
      (s₂.cur_idx : Int) = ((s.cur_idx : Int) + 2 * s.dir) % (s.players.length : Int) := by
  rcases hget : s.players[s.cur_idx]? with _ | deck
  · simp [start_step, hget] at hplay
  · have hB := Bot_play_spec s.draw s.discard deck s.dir s.is_hot s.wild_color s.g
    rcases hbp : Bot.play s.draw s.discard deck s.dir s.is_hot s.wild_color s.g with
        _ | ⟨r, d', di', de', dir', g'⟩ <;> rw [hbp] at hB
    · simp [start_step, hget, hbp] at hplay
    · cases r with
      | Win => simp [start_step, hget, hbp] at hplay
      | Starvation => simp [start_step, hget, hbp] at hplay
      | NoPlace =>
        rcases hadv : advance_idx s.players.length s.cur_idx dir' with _ | i
        · simp [start_step, hget, hbp, hadv] at hplay
        · simp only [start_step, hget, hbp, hadv, Option.some.injEq,
            StepResult.next.injEq] at hplay
          rw [← hplay] at hhot
          simp at hhot
      | Place nwc =>
        rcases hadv : advance_idx s.players.length s.cur_idx dir' with _ | i
        · simp [start_step, hget, hbp, hadv] at hplay
        · simp only [start_step, hget, hbp, hadv, Option.some.injEq,
            StepResult.next.injEq] at hplay
          subst hplay
          have hskip' : di'.head? = some (Card.Action Action.Skip c) := hskip
          have hdir : dir' = s.dir := by
            refine (hB.2.2 nwc rfl).2 fun c₂ hc => ?_
            rw [hskip'] at hc
            simp at hc
          have hlt : s.cur_idx < s.players.length := by
            by_contra hge
            rw [List.getElem?_eq_none (Nat.le_of_not_lt hge)] at hget
            cases hget
          have hlen : 0 < s.players.length := Nat.lt_of_le_of_lt (Nat.zero_le _) hlt
          obtain ⟨hi_emod, hi_lt⟩ :=
            advance_idx_emod s.players.length s.cur_idx dir' i hlen hadv
          have hcond : s.players.length ≤ 127 ∧ 0 ≤ (s.players.length : Int) + dir' := by
            by_cases h1 : s.players.length ≤ 127
            · refine ⟨h1, ?_⟩
              by_cases h2 : 0 ≤ (s.players.length : Int) + dir'
              · exact h2
              · simp only [advance_idx, if_pos h1, if_neg h2] at hadv
                exact Option.noConfusion hadv
            · simp only [advance_idx, if_neg h1] at hadv
              exact Option.noConfusion hadv
          refine ⟨hdir, by rw [hi_emod, hdir], ?_⟩
          have hlen' : (s.players.set s.cur_idx de').length = s.players.length :=
            List.length_set s.players s.cur_idx de'
          have hilt' : i < (s.players.set s.cur_idx de').length := by rw [hlen']; exact hi_lt
          rcases hget₁ : (s.players.set s.cur_idx de')[i]? with _ | deck₁
          · rw [List.getElem?_eq_none_iff] at hget₁
            omega
          · rcases hdi : di' with _ | ⟨top₁, rest₁⟩
            · rw [hdi] at hskip'
              cases hskip'
            · subst hdi
              simp only [List.head?_cons, Option.some.injEq] at hskip'
              subst hskip'
              have hbp₁ : Bot.play d' (Card.Action Action.Skip c :: rest₁) deck₁ dir' true
                  nwc g' =
                  some (PlayResult.NoPlace, d', Card.Action Action.Skip c :: rest₁, deck₁,
                    dir', g') := by
                simp [Bot.play]
              have hadv₂ : advance_idx (s.players.set s.cur_idx de').length i dir' =
                  some ((i + ((s.players.length : Int) + dir').toNat) %
                    s.players.length) := by
                rw [hlen']
                simp only [advance_idx, if_pos hcond.1, if_pos hcond.2]
              have hstep₂ : start_step
                  { draw := d', discard := Card.Action Action.Skip c :: rest₁,
                    players := s.players.set s.cur_idx de', dir := dir', is_hot := true,
                    wild_color := nwc, cur_idx := i, g := g' } =
                  some (StepResult.next
                    { draw := d', discard := Card.Action Action.Skip c :: rest₁,
                      players := (s.players.set s.cur_idx de').set i deck₁, dir := dir',
                      is_hot := false, wild_color := nwc,
                      cur_idx := (i + ((s.players.length : Int) + dir').toNat) %
                        s.players.length, g := g' }) := by
                simp only [start_step, hget₁, hbp₁, hadv₂]
              refine ⟨_, hstep₂, rfl, rfl, set_get_self _ i deck₁ hget₁, rfl, rfl, rfl, ?_⟩
              have hadv₃ := hadv₂
              rw [hlen'] at hadv₃
              obtain ⟨hi₂_emod, -⟩ :=
                advance_idx_emod s.players.length i dir'
                  ((i + ((s.players.length : Int) + dir').toNat) % s.players.length) hlen
                  hadv₃
              have hfinal := hi₂_emod
              rw [hi_emod, hdir, emod_add_emod_int] at hfinal
              have harith : (s.cur_idx : Int) + s.dir + s.dir =
                  (s.cur_idx : Int) + 2 * s.dir := by ring
              rw [harith] at hfinal
              rw [hdir]
              exact hfinal

/-- C5 witness: the two-step Skip scenario at a concrete two-player game:
player 0 plays its Skip card, player 1 is skipped with no state change, and
the free decision returns to index (0 + 2) mod 2 = 0. -/
theorem C5_witness :
    (match start_step skip_play_state with
      | some (StepResult.next s₁) =>
        s₁.dir = skip_play_state.dir ∧
        (s₁.cur_idx : Int) =
          ((skip_play_state.cur_idx : Int) + skip_play_state.dir) %
            (skip_play_state.players.length : Int) ∧
        ∃ s₂, start_step s₁ = some (StepResult.next s₂) ∧
          s₂.draw = s₁.draw ∧ s₂.discard = s₁.discard ∧ s₂.players = s₁.players ∧
          s₂.dir = s₁.dir ∧ s₂.wild_color = s₁.wild_color ∧ s₂.is_hot = false ∧
          (s₂.cur_idx : Int) =
            ((skip_play_state.cur_idx : Int) + 2 * skip_play_state.dir) %
              (skip_play_state.players.length : Int)
      | _ => False) := by
  have h := C5_skip_semantics skip_play_state
    { draw := [], discard := [Card.Action Action.Skip Color.Red, Card.Number 5 Color.Red],
      players := [[Card.Number 3 Color.Blue], []], dir := 1, is_hot := true,
      wild_color := none, cur_idx := 1, g := ⟨zeroTape, 1⟩ }
    Color.Red rfl rfl rfl
  rw [show start_step skip_play_state = some (StepResult.next
    { draw := [], discard := [Card.Action Action.Skip Color.Red, Card.Number 5 Color.Red],
      players := [[Card.Number 3 Color.Blue], []], dir := 1, is_hot := true,
      wild_color := none, cur_idx := 1, g := ⟨zeroTape, 1⟩ }) from rfl]
  exact h

end Ein
